import Mathlib

/-!
Verification of the DDV ("Masher") audio/video frame decoder
(`src/oddlib/masher.cpp`).  The C++ code is shallowly embedded: machine
integers become `Nat`/`Int` with explicit `% 2^w` where wrap-around can
occur, pointers become indices into total functions `Nat → Nat`
(16-bit-word memory) and buffers become functions updated pointwise.
-/

namespace Masher

/-- Two's-complement reading of the low 16 bits of an integer
    (`static_cast<s16>` on a 32-bit value). -/
def toS16 (x : Int) : Int :=
  let m := x % 65536
  if m < 32768 then m else m - 65536

/-- `static_cast<u16>`: low 16 bits as an unsigned value. -/
def toU16 (x : Int) : Nat := (x % 65536).toNat

/-- Conversion of an integer to its 32-bit unsigned representative
    (C assignment of an `int` expression to a `u32`). -/
def toU32 (x : Int) : Nat := (x % 4294967296).toNat

/-- Two's-complement reading of a 32-bit unsigned value as a signed `int`. -/
def s32OfU32 (x : Nat) : Int :=
  if x < 2147483648 then (x : Int) else (x : Int) - 4294967296

/-- C arithmetic right shift on a signed 32-bit value (`>>` on `int`),
    which is floor division by a power of two. -/
def asr (x : Int) (n : Nat) : Int := x >>> n

/-- Low 16 bits of a 32-bit value. -/
def lo16 (x : Nat) : Nat := x % 65536

/-- `GetHiWord`: bits 16..31 of a 32-bit value. -/
def GetHiWord (x : Nat) : Nat := (x >>> 16) % 65536

/-- `SetLoWord`: replace the low 16 bits of a 32-bit value. -/
def SetLoWord (v : Nat) (lo : Nat) : Nat := (GetHiWord v) * 65536 + lo % 65536

/-- `SetHiWord`: replace the high 16 bits of a 32-bit value. -/
def SetHiWord (v : Nat) (hi : Nat) : Nat := (hi % 65536) * 65536 + v % 65536

/-- `ExtractBits(value, numBits)`: the top `numBits` bits of a 32-bit value. -/
def ExtractBits (value : Nat) (numBits : Nat) : Nat := value >>> (32 - numBits)

/-- Static luma base quantization table `gQuant1_dword_42AEC8`. -/
def gQuant1_dword_42AEC8 : List Nat :=
  [0x0C, 0x0B, 0x0A, 0x0C, 0x0E, 0x0E, 0x0D, 0x0E,
   0x10, 0x18, 0x13, 0x10, 0x11, 0x12, 0x18, 0x16,
   0x16, 0x18, 0x1A, 0x28, 0x33, 0x3A, 0x28, 0x1D,
   0x25, 0x23, 0x31, 0x48, 0x40, 0x37, 0x38, 0x33,
   0x39, 0x3C, 0x3D, 0x37, 0x45, 0x57, 0x44, 0x40,
   0x4E, 0x5C, 0x5F, 0x57, 0x51, 0x6D, 0x50, 0x38,
   0x3E, 0x67, 0x68, 0x67, 0x62, 0x70, 0x79, 0x71,
   0x4D, 0x5C, 0x78, 0x64, 0x67, 0x65, 0x63, 0x10]

/-- Static chroma base quantization table `gQaunt2_dword_42AFC4`. -/
def gQaunt2_dword_42AFC4 : List Nat :=
  [0x10, 0x12, 0x12, 0x18, 0x15, 0x18, 0x2F, 0x1A,
   0x1A, 0x2F, 0x63, 0x42, 0x38, 0x42, 0x63, 0x63,
   0x63, 0x63, 0x63, 0x63, 0x63, 0x63, 0x63, 0x63,
   0x63, 0x63, 0x63, 0x63, 0x63, 0x63, 0x63, 0x63,
   0x63, 0x63, 0x63, 0x63, 0x63, 0x63, 0x63, 0x63,
   0x63, 0x63, 0x63, 0x63, 0x63, 0x63, 0x63, 0x63,
   0x63, 0x63, 0x63, 0x63, 0x63, 0x63, 0x63, 0x63,
   0x63, 0x63, 0x63, 0x63, 0x63, 0x63, 0x63, 0x63]

/-- Access to the luma base table (reads beyond the array are modelled as 0). -/
def gQuantY (i : Nat) : Nat := gQuant1_dword_42AEC8.getD i 0

/-- Access to the chroma base table. -/
def gQuantC (i : Nat) : Nat := gQaunt2_dword_42AFC4.getD i 0

/-- Zig-zag AC index table `g_index_look_up_table`. -/
def g_index_look_up_table : List Nat :=
  [0x01, 0x08, 0x10, 0x09, 0x02, 0x03, 0x0A, 0x11,
   0x18, 0x20, 0x19, 0x12, 0x0B, 0x04, 0x05, 0x0C,
   0x13, 0x1A, 0x21, 0x28, 0x30, 0x29, 0x22, 0x1B,
   0x14, 0x0D, 0x06, 0x07, 0x0E, 0x15, 0x1C, 0x23,
   0x2A, 0x31, 0x38, 0x39, 0x32, 0x2B, 0x24, 0x1D,
   0x16, 0x0F, 0x17, 0x1E, 0x25, 0x2C, 0x33, 0x3A,
   0x3B, 0x34, 0x2D, 0x26, 0x1F, 0x27, 0x2E, 0x35,
   0x3C, 0x3D, 0x36, 0x2F, 0x37, 0x3E, 0x3F, 0x98E]

/-- `g_index_look_up_table` as a total function. -/
def zigIdx (i : Nat) : Nat := g_index_look_up_table.getD i 0

/-- Full 64-entry zig-zag `RL_ZSCAN_MATRIX_2`. -/
def RL_ZSCAN_MATRIX_2 : List Nat :=
  [0x00, 0x01, 0x08, 0x10, 0x09, 0x02, 0x03, 0x0A,
   0x11, 0x18, 0x20, 0x19, 0x12, 0x0B, 0x04, 0x05,
   0x0C, 0x13, 0x1A, 0x21, 0x28, 0x30, 0x29, 0x22,
   0x1B, 0x14, 0x0D, 0x06, 0x07, 0x0E, 0x15, 0x1C,
   0x23, 0x2A, 0x31, 0x38, 0x39, 0x32, 0x2B, 0x24,
   0x1D, 0x16, 0x0F, 0x17, 0x1E, 0x25, 0x2C, 0x33,
   0x3A, 0x3B, 0x34, 0x2D, 0x26, 0x1F, 0x27, 0x2E,
   0x35, 0x3C, 0x3D, 0x36, 0x2F, 0x37, 0x3E, 0x3F]

/-- `RL_ZSCAN_MATRIX_2` as a total function. -/
def rlZscan (i : Nat) : Nat := RL_ZSCAN_MATRIX_2.getD i 0

/-- Tail-zeroing helper table `g_block_related_2_dword_42B0CC`. -/
def g_block_related_2_dword_42B0CC : List Nat :=
  [0x08, 0x10, 0x09, 0x02, 0x03, 0x0A, 0x11, 0x18,
   0x20, 0x19, 0x12, 0x0B, 0x04, 0x05, 0x0C, 0x13,
   0x1A, 0x21, 0x28, 0x30, 0x29, 0x22, 0x1B, 0x14,
   0x0D, 0x06, 0x07, 0x0E, 0x15, 0x1C, 0x23, 0x2A,
   0x31, 0x38, 0x39, 0x32, 0x2B, 0x24, 0x1D, 0x16,
   0x0F, 0x17, 0x1E, 0x25, 0x2C, 0x33, 0x3A, 0x3B,
   0x34, 0x2D, 0x26, 0x1F, 0x27, 0x2E, 0x35, 0x3C,
   0x3D, 0x36, 0x2F, 0x37, 0x3E, 0x3F, 0x98E, 0x98E]

/-- `g_block_related_2_dword_42B0CC` as a total function. -/
def blockRel2 (i : Nat) : Nat := g_block_related_2_dword_42B0CC.getD i 0

/-- Tail-zeroing helper table `g_block_related_3_dword_42B0D0`. -/
def g_block_related_3_dword_42B0D0 : List Nat :=
  [0x10, 0x09, 0x02, 0x03, 0x0A, 0x11, 0x18, 0x20,
   0x19, 0x12, 0x0B, 0x04, 0x05, 0x0C, 0x13, 0x1A,
   0x21, 0x28, 0x30, 0x29, 0x22, 0x1B, 0x14, 0x0D,
   0x06, 0x07, 0x0E, 0x15, 0x1C, 0x23, 0x2A, 0x31,
   0x38, 0x39, 0x32, 0x2B, 0x24, 0x1D, 0x16, 0x0F,
   0x17, 0x1E, 0x25, 0x2C, 0x33, 0x3A, 0x3B, 0x34,
   0x2D, 0x26, 0x1F, 0x27, 0x2E, 0x35, 0x3C, 0x3D,
   0x36, 0x2F, 0x37, 0x3E, 0x3F, 0x98E, 0x98E, 0xF384]

/-- `g_block_related_3_dword_42B0D0` as a total function. -/
def blockRel3 (i : Nat) : Nat := g_block_related_3_dword_42B0D0.getD i 0

/-!
## Per-frame dequantization setup

`after_block_decode_no_effect_q_impl(quantScale)` fills the two 64-entry
u32 arrays `g_252_buffer_unk_63580C` (used for luma blocks) and
`g_252_buffer_unk_635A0C` (used for chroma blocks).  The state is the pair
of arrays, modelled as functions `Fin 64 → Nat`.
-/

/-- One iteration of the `do { … } while (result < 63)` loop in
`after_block_decode_no_effect_q_impl`, reindexed by the pre-increment value
`i` of `result` (so the store happens at index `i+1`):
`val = gQuant1[i]; bufY[i+1] = quantScale * val;
 bufC[i+1] = quantScale * gQaunt2[i+1];`. -/
def afterQStep (quantScale : Nat) (p : (Fin 64 → Nat) × (Fin 64 → Nat)) (i : Fin 63) :
    (Fin 64 → Nat) × (Fin 64 → Nat) :=
  let val := gQuantY i.val
  (Function.update p.1 i.succ (quantScale * val),
   Function.update p.2 i.succ (quantScale * gQuantC i.succ.val))

/-- `after_block_decode_no_effect_q_impl`: returns the pair
(`g_252_buffer_unk_63580C` = luma array, `g_252_buffer_unk_635A0C` = chroma
array).  The globals are zero-initialized; index 0 of both is set to 16,
then either the multiply loop runs (`quantScale > 0`) or both arrays are
filled with 16. -/
def after_block_decode_no_effect_q_impl (quantScale : Nat) :
    (Fin 64 → Nat) × (Fin 64 → Nat) :=
  let bufY : Fin 64 → Nat := Function.update (fun _ => 0) 0 16
  let bufC : Fin 64 → Nat := Function.update (fun _ => 0) 0 16
  if quantScale > 0 then
    (List.finRange 63).foldl (afterQStep quantScale) (bufY, bufC)
  else
    (fun _ => 16, fun _ => 16)

/-- Luma dequantization array for a frame quantization scale. -/
def quantLuma (quantScale : Nat) : Fin 64 → Nat :=
  (after_block_decode_no_effect_q_impl quantScale).1

/-- Chroma dequantization array for a frame quantization scale. -/
def quantChroma (quantScale : Nat) : Fin 64 → Nat :=
  (after_block_decode_no_effect_q_impl quantScale).2

/-!
## Coefficient unpacker `ddv_func7_DecodeMacroBlock_impl`

Input is a cursor `p` into a 16-bit word memory `mem : Nat → Nat`; the
destination block is a u32-slot buffer `out : Nat → Nat` (the C code can
write past slot 63 through the zig-zag sentinel values, so the buffer is
modelled as an unbounded address space).  `tbl k` models `pTable[k]` for
the initial cursor `pTable = &quantArray[1]`.
-/

/-- Pointwise store `f[k] := v`. -/
def upd (f : Nat → Nat) (k v : Nat) : Nat → Nat := fun x => if x = k then v else f x

/-- The `while (*pInput == 0xFE00) pInput++;` skip loop, with fuel. -/
def skipEOB (mem : Nat → Nat) (p : Nat) : Nat → Nat
  | 0 => p
  | fuel+1 => if mem p = 0xFE00 then skipEOB mem (p+1) fuel else p

/-- Sign extension of an 11-bit field (claim-side helper). -/
def sext11 (x : Nat) : Int := if x % 2048 < 1024 then (x % 2048 : Int) else (x % 2048 : Int) - 2048

/-- Sign extension of a 6-bit field (claim-side helper, for the claim's
`sign_extend_6(H[15:10])` reading). -/
def sext6 (x : Nat) : Int := if x % 64 < 32 then (x % 64 : Int) else (x % 64 : Int) - 64

/-- The block-header DC expression of the source,
`(v1 << 10) + 2 * (*pInput << 21 >> 22)` evaluated on the header word `H`
(signed-`int` wrap-around of `H << 21` included), stored as a u32. -/
def headerSlot0 (isYBlock : Bool) (H : Nat) : Nat :=
  let v1 : Nat := if isYBlock then 1 else 0
  toU32 ((v1 <<< 10 : Nat) + 2 * asr (s32OfU32 ((H <<< 21) % 4294967296)) 22)

/-- The inner `while(1){--k; idx = zig[counter]; if (!k) break;
pOutput[idx] = 0; ++counter;}` zero-run of the run-skip branch.  Returns
the updated buffer, the updated counter and the final `idx`.  (`k = 0`
cannot occur: the loop is entered with `k = q_scale + 1 ≥ 1`.) -/
def zeroRun (out : Nat → Nat) (counter : Nat) : Nat → (Nat → Nat) × Nat × Nat
  | 0 => (out, counter, zigIdx counter)
  | 1 => (out, counter, zigIdx counter)
  | k+2 => zeroRun (upd out (zigIdx counter) 0) (counter + 1) (k+1)

/-- One dequantized coefficient value:
`(u16)((pTable[q_scale] * (v24 >> 22) + 4) >> 3)` packed with
`GetHiWord(v24)` (u32 arithmetic, logical `>> 3`). -/
def packCoeff (tblVal : Nat) (v24u : Nat) : Nat :=
  let lo := (((tblVal * toU32 (asr (s32OfU32 v24u) 22)) % 4294967296 + 4) % 4294967296) >>> 3
  GetHiWord v24u * 65536 + lo % 65536

/-- The incremental (`flag = 1`) branch loop of
`ddv_func7_DecodeMacroBlock_impl`.  State: counter, table cursor `c`,
input cursor `p`, buffer.  Returns the final buffer and input cursor. -/
def incrLoop (mem tbl : Nat → Nat) : Nat → Nat → Nat → Nat → (Nat → Nat) → (Nat → Nat) × Nat
  | 0, _, _, p, out => (out, p)
  | fuel+1, counter, c, p, out =>
    let M := mem p
    if M = 0xFE00 then (out, p + 1)
    else
      let q := M >>> 10
      let counter := counter + q
      let idx := zigIdx counter
      let v24u := (out idx + (M <<< 22)) % 4294967296
      let out := upd out idx (packCoeff (tbl (c + q)) v24u)
      if counter + 1 < 63 then incrLoop mem tbl fuel (counter + 1) (c + q + 1) (p + 1) out
      else (out, p + 1)

/-- The run-skip (`flag = 0`) branch loop.  The last component is `true`
when the loop exited through the in-loop `return` (`counter ≥ 63`). -/
def runSkipLoop (mem tbl : Nat → Nat) :
    Nat → Nat → Nat → Nat → (Nat → Nat) → (Nat → Nat) × Nat × Nat × Bool
  | 0, counter, _, p, out => (out, p, counter, true)
  | fuel+1, counter, c, p, out =>
    let M := mem p
    if M = 0xFE00 then (out, p + 1, counter, false)
    else
      let q := M >>> 10
      let v24u := (M <<< 22) % 4294967296
      let (out, counter, idx) := zeroRun out counter (q + 1)
      let out := upd out idx (packCoeff (tbl (c + q)) v24u)
      if counter + 1 ≥ 63 then (out, p + 1, counter + 1, true)
      else runSkipLoop mem tbl fuel (counter + 1) (c + q + 1) (p + 1) out

/-- The three conditional `pOutput[RL_ZSCAN_MATRIX_2[counter3++]] = 0`
alignment stores before the tail-zeroing loop. -/
def alignZero (out : Nat → Nat) (c3 : Nat) : (Nat → Nat) × Nat :=
  if c3 % 4 ≠ 0 then
    let out := upd out (rlZscan c3) 0
    let c3 := c3 + 1
    if c3 % 4 ≠ 0 then
      let out := upd out (rlZscan c3) 0
      let c3 := c3 + 1
      if c3 % 4 ≠ 0 then (upd out (rlZscan c3) 0, c3 + 1)
      else (out, c3)
    else (out, c3)
  else (out, c3)

/-- The `while (counter3 != 64)` tail-zeroing loop (four stores, step 4). -/
def tailZero (out : Nat → Nat) (c3 : Nat) : Nat → Nat → Nat
  | 0 => out
  | fuel+1 =>
    if c3 = 64 then out
    else
      tailZero
        (upd (upd (upd (upd out (rlZscan c3) 0) (zigIdx c3) 0) (blockRel2 c3) 0)
          (blockRel3 c3) 0) (c3 + 4) fuel

/-- `memset(pOutput + 1, 0, 0xFC)`: zero the 63 AC slots. -/
def memset63 (out : Nat → Nat) : Nat → Nat := fun x => if 1 ≤ x ∧ x ≤ 63 then 0 else out x

/-- Bound check for the AC words of a block: every run-level word before
the terminating `0xFE00` keeps the zig-zag counter within the 64-entry
lookup table (reads past it are undefined behaviour in the C code), and
the terminator is reached within the fuel. -/
def acOk (mem : Nat → Nat) : Nat → Nat → Nat → Bool
  | 0, _, _ => false
  | fuel+1, p, counter =>
    if mem p = 0xFE00 then true
    else
      decide (counter + (mem p >>> 10) ≤ 63) &&
        acOk mem fuel (p + 1) (counter + (mem p >>> 10) + 1)

/-- `ddv_func7_DecodeMacroBlock_impl`: skip stale `0xFE00` words, decode
the block header into slot 0, then run the incremental or run-skip AC
branch.  Returns the block buffer and the advanced input cursor.
`skipFuel` bounds the header skip loop; both AC loops advance `counter`
each iteration and terminate within 64 steps, matching their fuel. -/
def ddv_func7_DecodeMacroBlock_impl (mem tbl : Nat → Nat) (out0 : Nat → Nat)
    (isYBlock : Bool) (p0 skipFuel : Nat) : (Nat → Nat) × Nat :=
  let p := skipEOB mem p0 skipFuel
  let H := mem p
  let out := upd out0 0 (headerSlot0 isYBlock H)
  let p := p + 1
  if H % 2 = 1 then incrLoop mem tbl 64 0 0 p out
  else
    let (out, p', counter, early) := runSkipLoop mem tbl 64 0 0 p out
    if early then (out, p')
    else if counter ≠ 0 then
      let (out, c3) := alignZero out (counter + 1)
      (tailZero out c3 16, p')
    else (memset63 out, p')

/-!
## IDCT

`half_idct` runs eight lines of the 8-point butterfly over a 64-int32
buffer; `idct` sign-extends the low 16 bits of each packed u32 slot and
applies the two passes (`pitch=8, increment=1, shift=11` then
`pitch=1, increment=8, shift=18`).  `pTemp[4..7]` hold the even part,
`pTemp[0..3]` the odd part.
-/

/-- Pointwise store for `Int`-valued buffers. -/
def updZ (f : Nat → Int) (k : Nat) (v : Int) : Nat → Int := fun x => if x = k then v else f x

/-- One iteration (`i`) of the loop in `half_idct`: the eight temporaries
and the eight destination stores at `(0..7) * nPitch + i * nIncrement`. -/
def idctLine (pSource : Nat → Int) (nPitch nIncrement nShift : Nat)
    (pDestination : Nat → Int) (i : Nat) : Nat → Int :=
  let s := fun k => pSource (k * nPitch + i * nIncrement)
  let t4 := s 0 * 8192 + s 2 * 10703 + s 4 * 8192 + s 6 * 4433
  let t5 := s 0 * 8192 + s 2 * 4433 - s 4 * 8192 - s 6 * 10704
  let t6 := s 0 * 8192 - s 2 * 4433 - s 4 * 8192 + s 6 * 10704
  let t7 := s 0 * 8192 - s 2 * 10703 + s 4 * 8192 - s 6 * 4433
  let t0 := s 1 * 11363 + s 3 * 9633 + s 5 * 6437 + s 7 * 2260
  let t1 := s 1 * 9633 - s 3 * 2259 - s 5 * 11362 - s 7 * 6436
  let t2 := s 1 * 6437 - s 3 * 11362 + s 5 * 2261 + s 7 * 9633
  let t3 := s 1 * 2260 - s 3 * 6436 + s 5 * 9633 - s 7 * 11363
  updZ (updZ (updZ (updZ (updZ (updZ (updZ (updZ pDestination
    (0 * nPitch + i * nIncrement) (asr (t4 + t0) nShift))
    (1 * nPitch + i * nIncrement) (asr (t5 + t1) nShift))
    (2 * nPitch + i * nIncrement) (asr (t6 + t2) nShift))
    (3 * nPitch + i * nIncrement) (asr (t7 + t3) nShift))
    (4 * nPitch + i * nIncrement) (asr (t7 - t3) nShift))
    (5 * nPitch + i * nIncrement) (asr (t6 - t2) nShift))
    (6 * nPitch + i * nIncrement) (asr (t5 - t1) nShift))
    (7 * nPitch + i * nIncrement) (asr (t4 - t0) nShift)

/-- `half_idct`: the eight lines, starting from an uninitialized (all
written) destination buffer. -/
def half_idct (pSource : Nat → Int) (nPitch nIncrement nShift : Nat) : Nat → Int :=
  (List.range 8).foldl (idctLine pSource nPitch nIncrement nShift) (fun _ => 0)

/-- `idct`: sign extension of the low 16 bits of every packed slot
(`pExtendedSource[i] = input[i * 2]` on the int16 view), then the two
`half_idct` passes. -/
def idct (input : Nat → Nat) : Nat → Int :=
  let pExtendedSource : Nat → Int := fun i => toS16 ((input i : Int))
  half_idct (half_idct pExtendedSource 8 1 11) 1 8 18

/-- The 8-point butterfly exactly as the specification lists it: even
part `E0..E3`, odd part `O0..O3`, outputs `d[0..3] = (E+O) >> shift`,
`d[7..4] = (E−O) >> shift` (arithmetic shifts). -/
def butterflySpec (s : Nat → Int) (shift : Nat) (k : Nat) : Int :=
  let E0 := s 0 * 8192 + s 2 * 10703 + s 4 * 8192 + s 6 * 4433
  let E1 := s 0 * 8192 + s 2 * 4433 - s 4 * 8192 - s 6 * 10704
  let E2 := s 0 * 8192 - s 2 * 4433 - s 4 * 8192 + s 6 * 10704
  let E3 := s 0 * 8192 - s 2 * 10703 + s 4 * 8192 - s 6 * 4433
  let O0 := s 1 * 11363 + s 3 * 9633 + s 5 * 6437 + s 7 * 2260
  let O1 := s 1 * 9633 - s 3 * 2259 - s 5 * 11362 - s 7 * 6436
  let O2 := s 1 * 6437 - s 3 * 11362 + s 5 * 2261 + s 7 * 9633
  let O3 := s 1 * 2260 - s 3 * 6436 + s 5 * 9633 - s 7 * 11363
  match k with
  | 0 => asr (E0 + O0) shift
  | 1 => asr (E1 + O1) shift
  | 2 => asr (E2 + O2) shift
  | 3 => asr (E3 + O3) shift
  | 4 => asr (E3 - O3) shift
  | 5 => asr (E2 - O2) shift
  | 6 => asr (E1 - O1) shift
  | _ => asr (E0 - O0) shift

/-- The claim's description of the whole IDCT: pass 1 over columns
(pitch 8, shift 11) on the sign-extended low 16 bits, pass 2 over rows
(pitch 1, shift 18), each line the listed butterfly. -/
def idctSpec (input : Nat → Nat) (j : Nat) : Int :=
  let ext : Nat → Int := fun i => toS16 ((input i : Int))
  let pass1 : Nat → Int := fun p => butterflySpec (fun m => ext (m * 8 + p % 8)) 11 (p / 8)
  butterflySpec (fun m => pass1 (m + 8 * (j / 8))) 18 (j % 8)

/-- Concrete example block stream: one stale EOB word, an odd header,
one AC word, then the block terminator. -/
def exampleBlockMem : Nat → Nat := fun i => [0xFE00, 0x403, 0x801, 0xFE00].getD i 0

/-!
## Macroblock assembly: pixel write positions

`ConvertYuvToRgbAndBlit` walks `x` 0..15 (outer) and `y` 0..15 (inner)
and stores a pixel at `(x + xoff, y + yoff)` only when
`xpos < width && ypos < height`.  `Masher::ParseVideoFrame` walks
macroblock columns (outer) and rows (inner), bumping the offsets by 16.
The pixel-value computation is floating point and does not affect which
positions are written, so the model records the positions only.
-/

/-- The in-bounds pixel positions written by one
`ConvertYuvToRgbAndBlit(pixelBuffer, xoff, yoff, width, height)` call. -/
def blitWrites (width height xoff yoff : Nat) : List (Nat × Nat) :=
  (List.range 16).flatMap fun x =>
    (List.range 16).flatMap fun y =>
      if x + xoff < width ∧ y + yoff < height then [(x + xoff, y + yoff)] else []

/-- The pixel positions written by one `Masher::ParseVideoFrame` call:
`mNumMacroblocksX/Y` are `width/16`, `height/16` rounded up, and the
function returns immediately when either count is zero. -/
def parseVideoFrameWrites (width height : Nat) : List (Nat × Nat) :=
  let mbX := width / 16 + (if width % 16 ≠ 0 then 1 else 0)
  let mbY := height / 16 + (if height % 16 ≠ 0 then 1 else 0)
  if mbX = 0 ∨ mbY = 0 then []
  else
    (List.range mbX).flatMap fun xBlock =>
      (List.range mbY).flatMap fun yBlock =>
        blitWrites width height (16 * xBlock) (16 * yBlock)

/-!
## Video bitstream decoder `decode_bitstream`

The deeply nested `while(1)/break` construction is embedded as an explicit
state machine.  Control locations: `readCode` (top of the code loop, where
`table_index_2` is read), `checkWord i` (word `i` of the current Tbl2
entry sits in the low 16 bits of `rawWord4`), `eobCheck i` (an `0xFE00`
was just emitted from word `i`; the next 11 bits decide end-of-frame) and
`setNext i` (load output word `i+1` of the current entry and test it for
zero).  The lookup tables `gTbl1`/`gTbl2` live in `masher_tables.hpp`,
which is not among this repository's source files, so their contents are
parameters of the machine; the control flow embedded here is exactly that
of `decode_bitstream` in `masher.cpp`.
-/

/-- Table and stream environment of `decode_bitstream`. -/
structure BSEnv where
  tbl1Bits : Nat → Nat
  tbl1Word : Nat → Nat
  tbl2Bits : Nat → Nat
  tbl2Word1 : Nat → Nat
  tbl2Word2 : Nat → Nat
  tbl2Word3 : Nat → Nat
  mem : Nat → Nat

/-- A 16-bit word read through a `u16*` (`pFrameData[k]`). -/
def bsWord (env : BSEnv) (k : Nat) : Nat := env.mem k % 65536

/-- Mutable state of `decode_bitstream`: the 32-bit work register, the
`usedBitCount` counter, the raw stream cursor `rawBitStreamPtr`, the
current `table_index_2`, the scratch `rawWord4` and the emitted words
(most recent first). -/
structure BSSt where
  work : Nat
  used : Nat
  cur : Nat
  t2 : Nat
  raw : Nat
  out : List Nat
  deriving DecidableEq

/-- Control locations of the nested-loop machine. -/
inductive BSLoc
  | readCode
  | checkWord (i : Nat)
  | eobCheck (i : Nat)
  | setNext (i : Nat)
  deriving DecidableEq

/-- `SkipBits`: shift the work register left and count the bits. -/
def bsConsume (n : Nat) (st : BSSt) : BSSt :=
  { st with work := (st.work <<< n) % 4294967296, used := st.used + n }

/-- `GetBits`: when bit 4 of `usedBitCount` is set, clear it and OR the
next raw word (shifted by the masked count) into the work register;
`rawWord4` holds the shifted refill word. -/
def bsRefill (env : BSEnv) (st : BSSt) : BSSt :=
  if st.used &&& 16 ≠ 0 then
    let used := st.used &&& 15
    let raw := (bsWord env st.cur <<< used) % 4294967296
    { st with used := used, raw := raw, work := st.work ||| raw, cur := st.cur + 1 }
  else st

/-- `*pOutput++ = static_cast<unsigned short>(w)`. -/
def bsEmit (w : Nat) (st : BSSt) : BSSt := { st with out := w % 65536 :: st.out }

/-- `OutputWordAndAdvance`: emit the top 16 bits of the work register,
then refill it unconditionally from the next raw word. -/
def OutputWordAndAdvance (env : BSEnv) (st : BSSt) : BSSt :=
  let raw := (bsWord env st.cur <<< st.used) % 4294967296
  { st with out := (st.work >>> 16) % 65536 :: st.out,
            raw := raw,
            work := raw ||| (st.work <<< 16) % 4294967296,
            cur := st.cur + 1 }

/-- One transition of `decode_bitstream`; `Sum.inr r` is the function
returning `r`. -/
def bsStep (env : BSEnv) : BSLoc × BSSt → (BSLoc × BSSt) ⊕ Nat
  | (.readCode, st) =>
    let t2 := ExtractBits st.work 13
    if t2 < 32 then
      let t1 := ExtractBits st.work 17
      let st := bsRefill env (bsConsume 8 st)
      let st := bsRefill env (bsConsume (env.tbl1Bits t1) st)
      .inl (.readCode, bsEmit (env.tbl1Word t1) st)
    else
      let st := bsRefill env (bsConsume (env.tbl2Bits t2) st)
      .inl (.checkWord 1, { st with t2 := t2, raw := SetLoWord st.raw (env.tbl2Word1 t2) })
  | (.checkWord i, st) =>
    if st.raw % 65536 = 0x7C1F then
      .inl (.readCode, OutputWordAndAdvance env st)
    else
      let st' := bsEmit st.raw st
      if st.raw % 65536 = 0xFE00 then .inl (.eobCheck i, st')
      else if 3 ≤ i then .inl (.readCode, st')
      else .inl (.setNext i, st')
  | (.eobCheck i, st) =>
    let v := ExtractBits st.work 11
    let st' := bsConsume 11 st
    if v = 0x3FF then .inr (bsWord env 0)
    else
      let st' := bsRefill env (bsEmit (v &&& 0x7FF) { st' with raw := v &&& 0x7FF })
      if 3 ≤ i then .inl (.readCode, st') else .inl (.setNext i, st')
  | (.setNext i, st) =>
    let w := if i = 1 then env.tbl2Word2 st.t2 else env.tbl2Word3 st.t2
    let st' := { st with raw := SetLoWord st.raw w }
    if st'.raw % 65536 = 0 then .inl (.readCode, st')
    else .inl (.checkWord (i + 1), st')

/-- Initial state of `decode_bitstream`: build the swapped 32-bit work
register from words 1 and 2, emit the first 11-bit field, start the raw
cursor at word 3. -/
def bsInit (env : BSEnv) : BSSt :=
  let workBits0 := ((bsWord env 2 <<< 16) ||| bsWord env 1) % 4294967296
  let workBits := ((workBits0 <<< 16) % 4294967296) ||| (workBits0 >>> 16)
  let raw := ExtractBits workBits 11
  { work := (workBits <<< 11) % 4294967296,
    used := 11,
    cur := 3,
    t2 := 0,
    raw := raw,
    out := [raw % 65536] }

/-- Run the machine for at most `fuel` transitions. -/
def bsRun (env : BSEnv) : Nat → BSLoc × BSSt → (BSLoc × BSSt) ⊕ Nat
  | 0, s => .inl s
  | fuel+1, s =>
    match bsStep env s with
    | .inl s' => bsRun env fuel s'
    | .inr r => .inr r

/-- `decode_bitstream` as a fueled run from the initial state. -/
def decode_bitstream (env : BSEnv) (fuel : Nat) : (BSLoc × BSSt) ⊕ Nat :=
  bsRun env fuel (.readCode, bsInit env)

/-- Modelled from the spec: the escape behaviour the specification and
claim C8 describe — after emitting the raw 16-bit window in place of a
`0x7C1F` output word, decoding "resumes at the next output slot of the
same Tbl2 entry".  This machine differs from `bsStep` only in that
transition target; everything else is the source behaviour. -/
def bsStepSpecC8 (env : BSEnv) : BSLoc × BSSt → (BSLoc × BSSt) ⊕ Nat
  | (.checkWord i, st) =>
    if st.raw % 65536 = 0x7C1F then
      .inl ((if 3 ≤ i then .readCode else .setNext i), OutputWordAndAdvance env st)
    else bsStep env (.checkWord i, st)
  | s => bsStep env s

/-- Run of the claim-side escape machine. -/
def bsRunSpecC8 (env : BSEnv) : Nat → BSLoc × BSSt → (BSLoc × BSSt) ⊕ Nat
  | 0, s => .inl s
  | fuel+1, s =>
    match bsStepSpecC8 env s with
    | .inl s' => bsRunSpecC8 env fuel s'
    | .inr r => .inr r

/-- Emitted words of a machine result (most recent first). -/
def bsOut : (BSLoc × BSSt) ⊕ Nat → List Nat
  | .inl (_, st) => st.out
  | .inr _ => []

/-- Concrete environment exercising the escape path: the frame words make
the first `table_index_2` read large, and the Tbl2 entry's first output
word is the escape value `0x7C1F` with nonzero second and third words. -/
def envC8 : BSEnv :=
  { tbl1Bits := fun _ => 0
    tbl1Word := fun _ => 0
    tbl2Bits := fun _ => 0
    tbl2Word1 := fun _ => 0x7C1F
    tbl2Word2 := fun _ => 0x1234
    tbl2Word3 := fun _ => 0x5678
    mem := fun k => [0, 0xFFFF, 0xFFFF, 0, 0, 0, 0, 0].getD k 0 }

/-- Concrete environment exercising the end-of-frame return: the Tbl2
entry emits an immediate `0xFE00` and the following 11 bits of the frame
read `0x3FF`. -/
def envC4Ret : BSEnv :=
  { tbl1Bits := fun _ => 0
    tbl1Word := fun _ => 0
    tbl2Bits := fun _ => 0
    tbl2Word1 := fun _ => 0xFE00
    tbl2Word2 := fun _ => 0
    tbl2Word3 := fun _ => 0
    mem := fun k => [0x1234, 0x000F, 0xFC00, 0, 0, 0, 0, 0].getD k 0 }

/-!
## Audio decoder `AudioDecompressor`

The bit-reader members `mWorkBits`/`mUsedBits` are declared in
`masher.hpp`, which is not among this repository's source files.
Modelled from the spec: `mWorkBits` is the 32-bit work register filled
from two little-endian 16-bit words (low word first) with logical right
shifts (§4.1/§4.6 of the spec), `mUsedBits` the signed "bits remaining"
counter.  Everything else below is translated from `masher.cpp`.
-/

/-- 32-bit `&` of C `int` values through their unsigned images. -/
def cAnd32 (a b : Int) : Int := s32OfU32 (toU32 a &&& toU32 b)

/-- 32-bit `~` of a C `int` value. -/
def cNot32 (x : Int) : Int := s32OfU32 (toU32 x ^^^ 0xFFFFFFFF)

/-- Fuel-based halving count: `fuel` bounds the number of iterations of
`i >>= 1`; structural recursion on the fuel keeps the definition
reducible without well-founded unfolding. -/
def gSndTblValueA : Nat → Nat → Nat
  | 0, _ => 0
  | fuel + 1, i => if i = 0 then 0 else gSndTblValueA fuel (i / 2) + 1

/-- `gSndTbl_byte_62EEB0[i]` as computed by `init_Snd_tbl`: the number of
binary digits of `i` (`for (int i = index; i > 0; ++tableValue) i >>= 1`);
`i` halvings always exhaust `i`, so `i` itself is enough fuel. -/
def gSndTblValue (i : Nat) : Nat := gSndTblValueA i i

/-- `AudioDecompressor::GetSoundTableValue` (the sign-preserving log
table lookup). -/
def GetSoundTableValue (tblIndex : Int) : Int :=
  let positiveTblIdx : Nat := tblIndex.natAbs
  let shiftedIdx := (positiveTblIdx >>> 7) &&& 0xFF
  let t := gSndTblValue shiftedIdx
  let result : Int := (((t <<< 7) % 65536) ||| ((positiveTblIdx >>> t) % 65536) : Nat)
  if tblIndex < 0 then -result else result

/-- `AudioDecompressor::sub_408F50` (residual expansion). -/
def sub_408F50 (sample : Int) : Int :=
  let absSample : Nat := sample.natAbs
  let sampleBits := absSample >>> 7
  let sampleMasked := absSample &&& 0x7F
  let r0 : Nat := (sampleMasked <<< sampleBits) % 65536
  let r : Nat := if 2 ≤ sampleBits then r0 ||| ((1 <<< (sampleBits - 2)) % 65536) else r0
  let result := toS16 (r : Int)
  if sample < 0 then toS16 (-result) else result

/-- Audio bit-reader state: work register, signed bits-remaining counter
and the raw-word cursor `mAudioFrameDataPtr`. -/
structure ADSt where
  workBits : Nat
  usedBits : Int
  cur : Nat
  deriving DecidableEq

/-- `AudioDecompressor::ReadNextAudioWord`: refill 16 bits when 16 or
fewer bits remain.  Returns the new value and state. -/
def ReadNextAudioWord (mem : Nat → Nat) (value : Nat) (st : ADSt) : Nat × ADSt :=
  if st.usedBits ≤ 16 then
    let srcVal := mem st.cur % 65536
    (value ||| (srcVal <<< st.usedBits.toNat),
     { st with cur := st.cur + 1, usedBits := st.usedBits + 16 })
  else (value, st)

/-- `AudioDecompressor::NextSoundBits`: take `numBits` low bits as an s16,
shift the register and refill lazily. -/
def NextSoundBits (mem : Nat → Nat) (numBits : Nat) (st : ADSt) : Int × ADSt :=
  let used := st.usedBits - numBits
  let ret := toS16 (((st.workBits &&& ((1 <<< numBits) - 1)) : Nat) : Int)
  let work0 := st.workBits >>> numBits
  let (value, st') := ReadNextAudioWord mem work0 { st with usedBits := used, workBits := work0 }
  (ret, { st' with workBits := value })

/-- `AudioDecompressor::SndRelated_sub_409650`: align the reader down to
the next 8-bit boundary and refill. -/
def SndRelated_sub_409650 (mem : Nat → Nat) (st : ADSt) : ADSt :=
  let numBits : Nat := (st.usedBits % 8).toNat
  let work0 := st.workBits >>> numBits
  let (value, st') :=
    ReadNextAudioWord mem work0
      { st with usedBits := st.usedBits - numBits, workBits := work0 }
  { st' with workBits := value }

/-- `AudioDecompressor::SampleMatches`: `false` when the residual is the
sign-bit-only sentinel for this width; otherwise decode the sign and
return the accepted residual. -/
def SampleMatches (sample : Int) (bitNum : Int) : Bool × Int :=
  let bitMask : Int := s32OfU32 ((1 <<< (bitNum - 1).toNat) % 4294967296)
  if sample ≠ bitMask then
    (true, if cAnd32 sample bitMask ≠ 0 then -(cAnd32 sample (cNot32 bitMask)) else sample)
  else (false, sample)

/-- The `do { … } while (false)` residual-selection block: try the three
widths in order; an unmatched third try keeps the raw sentinel value. -/
def readResidual (mem : Nat → Nat) (w1 w2 w3 : Int) (st : ADSt) : Int × ADSt :=
  let r1 := NextSoundBits mem (toU16 w1) st
  let m1 := SampleMatches r1.1 w1
  if m1.1 then (m1.2, r1.2) else
  let r2 := NextSoundBits mem (toU16 w2) r1.2
  let m2 := SampleMatches r2.1 w2
  if m2.1 then (m2.2, r2.2) else
  let r3 := NextSoundBits mem (toU16 w3) r2.2
  ((SampleMatches r3.1 w3).2, r3.2)

/-- One iteration of the non-seed sample loop in
`decode_16bit_audio_frame`: read a residual, run the 3-tap predictor,
rotate the state, emit the new sample at the current strided position.
The accumulator is (bit reader, predictor triple, output position, write
log). -/
def decodeSampleStep (mem : Nat → Nat) (useTableFlag w1 w2 w3 : Int) (stride : Nat)
    (acc : ADSt × (Int × Int × Int) × Nat × List (Nat × Nat)) (_ : Nat) :
    ADSt × (Int × Int × Int) × Nat × List (Nat × Nat) :=
  let st := acc.1
  let pv := acc.2.1
  let pos := acc.2.2.1
  let log := acc.2.2.2
  let r := readResidual mem w1 w2 w3 st
  let samplePart := r.1
  let previous := 5 * pv.2.2 - 4 * pv.2.1
  let samplePartOrTableIndex := asr (pv.1 + previous) 1
  let newv :=
    if useTableFlag ≠ 0 then
      sub_408F50 (toS16 (samplePart + GetSoundTableValue (toS16 samplePartOrTableIndex)))
    else toS16 (samplePartOrTableIndex + samplePart)
  (r.2, (pv.2.1, pv.2.2, newv), pos + stride, log ++ [(pos, toU16 newv)])

/-- `AudioDecompressor::decode_16bit_audio_frame` for one channel:
header words, three seed samples, then `numSamplesPerFrame − 3` predicted
samples; unless this is the last channel, byte-align the reader.
Returns the final reader state and the ordered write log
(position, stored u16). -/
def decode_16bit_audio_frame (mem : Nat → Nat) (stride outBase numSamplesPerFrame : Nat)
    (isLast : Bool) (st : ADSt) : ADSt × List (Nat × Nat) :=
  let r1 := NextSoundBits mem 16 st
  let useTableFlag := r1.1
  let r2 := NextSoundBits mem 16 r1.2
  let firstWord := r2.1
  let r3 := NextSoundBits mem 16 r2.2
  let secondWord := r3.1
  let r4 := NextSoundBits mem 16 r3.2
  let thirdWord := r4.1
  let r5 := NextSoundBits mem 16 r4.2
  let previous1 := r5.1
  let r6 := NextSoundBits mem 16 r5.2
  let previous2 := r6.1
  let r7 := NextSoundBits mem 16 r6.2
  let previous3 := r7.1
  let log := [(outBase, toU16 previous1), (outBase + stride, toU16 previous2),
              (outBase + 2 * stride, toU16 previous3)]
  let acc :=
    if 3 < numSamplesPerFrame then
      (List.range (numSamplesPerFrame - 3)).foldl
        (decodeSampleStep mem useTableFlag firstWord secondWord thirdWord stride)
        (r7.2, (previous1, previous2, previous3), outBase + 3 * stride, log)
    else (r7.2, (previous1, previous2, previous3), outBase + 3 * stride, log)
  (if isLast then acc.1 else SndRelated_sub_409650 mem acc.1, acc.2.2.2)

/-- `AudioDecompressor::SetupAudioDecodePtrs`: load the first two 16-bit
words (little-endian, low word first), 32 bits available, cursor at 2. -/
def SetupAudioDecodePtrs (mem : Nat → Nat) : ADSt :=
  { workBits := (mem 0 % 65536) ||| ((mem 1 % 65536) <<< 16), usedBits := 32, cur := 2 }

/-- `Masher::decode_audio_frame`: `mAudioFrameSizeBytes` is set to 2, so
both channel decodes run with stride 2 (the guard
`mAudioFrameSizeBytes == 2` before the second call is always true);
channel 0 starts at slot 0, channel 1 at slot 1.  Returns the two
channels' write logs (the `memset` zero-fill is applied in
`decode_audio_frame_buffer`). -/
def decode_audio_frame (mem : Nat → Nat) (numSamplesPerFrame : Nat) :
    List (Nat × Nat) × List (Nat × Nat) :=
  let st0 := SetupAudioDecodePtrs mem
  let r0 := decode_16bit_audio_frame mem 2 0 numSamplesPerFrame false st0
  let r1 := decode_16bit_audio_frame mem 2 1 numSamplesPerFrame true r0.1
  (r0.2, r1.2)

/-- Apply a write log to a u16-slot buffer, in order. -/
def applyWrites (buf : Nat → Nat) (log : List (Nat × Nat)) : Nat → Nat :=
  log.foldl (fun b kv => fun x => if x = kv.1 then kv.2 else b x) buf

/-- The full effect of `Masher::decode_audio_frame` on the output buffer:
`memset(outPtr, 0, numSamplesPerFrame * 4)` zeroes the first
`2 * numSamplesPerFrame` 16-bit slots, then the two channel decodes
write their samples. -/
def decode_audio_frame_buffer (mem : Nat → Nat) (numSamplesPerFrame : Nat)
    (buf : Nat → Nat) : Nat → Nat :=
  let zeroed : Nat → Nat := fun p => if p < 2 * numSamplesPerFrame then 0 else buf p
  let logs := decode_audio_frame mem numSamplesPerFrame
  applyWrites (applyWrites zeroed logs.1) logs.2

/-!
## Container header parsing `Masher::Read`

The stream is a byte list; reads are little-endian.  The code throws
`InvalidDdv` with distinct messages at the magic and version checks;
these are modelled as the distinct error constructors `badMagic` and
`unsupportedVersion`.  A read past the end of the stream is modelled as
`shortRead` (spec §7; the stream class is not in src/).  A parse that
stops with an error never yields a header, so no frame can be decoded.
-/

/-- Header-parse error kinds. -/
inductive MasherError
  | badMagic
  | unsupportedVersion
  | shortRead
  deriving DecidableEq

/-- `MakeType("DDV\\0")`: the ASCII bytes `'D','D','V',0` as a
little-endian u32 (`MakeType` is not in src/; modelled from the spec §6
byte layout).  `68 + 256*68 + 65536*86 = 5653572`. -/
def MakeTypeDDV : Nat := 5653572

/-- The magic as bytes. -/
def ddvMagicBytes : List (Fin 256) := [68, 68, 86, 0]

/-- Read a little-endian u32 at `pos`; `shortRead` past the end. -/
def readU32 (bytes : List (Fin 256)) (pos : Nat) : Except MasherError (Nat × Nat) :=
  if pos + 4 ≤ bytes.length then
    .ok ((bytes.getD pos 0).val + 256 * (bytes.getD (pos+1) 0).val +
      65536 * (bytes.getD (pos+2) 0).val + 16777216 * (bytes.getD (pos+3) 0).val, pos + 4)
  else .error .shortRead

/-- Read a little-endian u16 at `pos`. -/
def readU16 (bytes : List (Fin 256)) (pos : Nat) : Except MasherError (Nat × Nat) :=
  if pos + 2 ≤ bytes.length then
    .ok ((bytes.getD pos 0).val + 256 * (bytes.getD (pos+1) 0).val, pos + 2)
  else .error .shortRead

/-- Read `count` u32 values. -/
def readU32List (bytes : List (Fin 256)) (pos : Nat) :
    Nat → Except MasherError (List Nat × Nat)
  | 0 => .ok ([], pos)
  | k+1 => do
    let (v, pos') ← readU32 bytes pos
    let (rest, pos'') ← readU32List bytes pos' k
    pure (v :: rest, pos'')

/-- The parsed container header (`Masher`'s header members). -/
structure MasherHeader where
  mDdvTag : Nat
  mDdvVersion : Nat
  mContains : Nat
  mFrameRate : Nat
  mNumberOfFrames : Nat
  videoHeader : Option (Nat × Nat × Nat × Nat × Nat × Nat)
  audioHeader : Option (Nat × Nat × Nat × Nat × Nat × List Nat)
  mFrameSizes : List Nat

/-- The part of `Masher::Read` after the magic and version checks: the
contains/frameRate/frame-count words, the optional video and audio
headers (with the interleave size table), and the per-frame size table.
The subsequent seek past the interleaved prebuffer payloads only moves
the stream position and is not part of the header data. -/
def masherReadRest (bytes : List (Fin 256)) (tag version pos : Nat) :
    Except MasherError MasherHeader := do
  let (contains, pos) ← readU32 bytes pos
  let (frameRate, pos) ← readU32 bytes pos
  let (numberOfFrames, pos) ← readU32 bytes pos
  let (video, pos) ←
    if contains &&& 1 = 1 then do
      let (unknown, pos) ← readU32 bytes pos
      let (width, pos) ← readU16 bytes pos
      let (height, pos) ← readU16 bytes pos
      let (maxAudioFrameSize, pos) ← readU32 bytes pos
      let (maxVideoFrameSize, pos) ← readU32 bytes pos
      let (keyFrameRate, pos) ← readU32 bytes pos
      pure (some (unknown, width, height, maxAudioFrameSize, maxVideoFrameSize,
        keyFrameRate), pos)
    else pure (none, pos)
  let (audio, pos) ←
    if contains &&& 2 = 2 then do
      let (audioFormat, pos) ← readU32 bytes pos
      let (sampleRate, pos) ← readU32 bytes pos
      let (maxAudioFrameSize, pos) ← readU32 bytes pos
      let (singleAudioFrameSize, pos) ← readU32 bytes pos
      let (numberOfFramesInterleave, pos) ← readU32 bytes pos
      let (audioFrameSizes, pos) ← readU32List bytes pos numberOfFramesInterleave
      pure (some (audioFormat, sampleRate, maxAudioFrameSize, singleAudioFrameSize,
        numberOfFramesInterleave, audioFrameSizes), pos)
    else pure (none, pos)
  let (frameSizes, _) ← readU32List bytes pos numberOfFrames
  pure { mDdvTag := tag, mDdvVersion := version, mContains := contains,
         mFrameRate := frameRate, mNumberOfFrames := numberOfFrames,
         videoHeader := video, audioHeader := audio, mFrameSizes := frameSizes }

/-- `Masher::Read`: validate the magic and version (throwing `badMagic`
and `unsupportedVersion` respectively), then parse the rest of the
header. -/
def masherRead (bytes : List (Fin 256)) : Except MasherError MasherHeader := do
  let (tag, pos) ← readU32 bytes 0
  if tag ≠ MakeTypeDDV then throw .badMagic
  let (version, pos) ← readU32 bytes pos
  if version ≠ 1 then throw .unsupportedVersion
  masherReadRest bytes tag version pos

lemma afterQ_foldl_apply_ne (q : Nat) (l : List (Fin 63))
    (p : (Fin 64 → Nat) × (Fin 64 → Nat)) (k : Fin 64)
    (h : ∀ i ∈ l, i.succ ≠ k) :
    (l.foldl (afterQStep q) p).1 k = p.1 k ∧
    (l.foldl (afterQStep q) p).2 k = p.2 k := by
  induction l generalizing p with
  | nil => exact ⟨rfl, rfl⟩
  | cons a t ih =>
    simp only [List.foldl_cons]
    have hrest := ih (afterQStep q p a) (fun i hi => h i (List.mem_cons_of_mem _ hi))
    have ha := h a (List.mem_cons_self _ _)
    refine ⟨hrest.1.trans ?_, hrest.2.trans ?_⟩ <;>
      simp only [afterQStep, Function.update_noteq ha.symm]

lemma afterQ_foldl_apply_succ (q : Nat) (l : List (Fin 63))
    (p : (Fin 64 → Nat) × (Fin 64 → Nat)) (j : Fin 63)
    (hmem : j ∈ l) (hnodup : l.Nodup) :
    (l.foldl (afterQStep q) p).1 j.succ = q * gQuantY j.val ∧
    (l.foldl (afterQStep q) p).2 j.succ = q * gQuantC (j.val + 1) := by
  induction l generalizing p with
  | nil => cases hmem
  | cons a t ih =>
    rcases List.mem_cons.mp hmem with rfl | hmem'
    · have hne : ∀ i ∈ t, i.succ ≠ j.succ := by
        intro i hi heq
        exact (List.nodup_cons.mp hnodup).1 ((Fin.succ_inj.mp heq) ▸ hi)
      have hpersist := afterQ_foldl_apply_ne q t (afterQStep q p j) j.succ hne
      simp only [List.foldl_cons]
      refine ⟨hpersist.1.trans ?_, hpersist.2.trans ?_⟩ <;>
        simp [afterQStep, Function.update_same, Fin.val_succ]
    · exact ih (afterQStep q p a) hmem' (List.nodup_cons.mp hnodup).2

/-- **C1 counterexample.**  At `qscale = 1` the claim predicts
`QC[1] = 1 * gQuantC[0] = 16`, but the code computes
`QC[1] = 1 * gQuantC[1] = 18`: in the multiply loop the chroma table is
indexed with the post-increment counter. -/
theorem c1_counterexample : ¬ (quantChroma 1 1 = 1 * gQuantC 0) := by
  decide

/-- **C1 (amended).**  For every frame quantization scale `qscale` the
per-frame dequantization setup produces two 64-entry arrays with
`QY[0] = QC[0] = 16`; when `qscale > 0`, for every `i ∈ [0..62]`,
`QY[i+1] = qscale * gQuantY[i]` and `QC[i+1] = qscale * gQuantC[i+1]`
(the chroma table is indexed at `i+1`, not `i`); when `qscale = 0`
every entry of both arrays equals 16. -/
theorem c1_dequant_setup (q : Nat) :
    (quantLuma q 0 = 16 ∧ quantChroma q 0 = 16) ∧
    (q = 0 → ∀ k : Fin 64, quantLuma q k = 16 ∧ quantChroma q k = 16) ∧
    (0 < q → ∀ i : Fin 63, quantLuma q i.succ = q * gQuantY i.val ∧
        quantChroma q i.succ = q * gQuantC (i.val + 1)) := by
  refine ⟨?_, ?_, ?_⟩
  · by_cases hq : q > 0
    · have h0 : ∀ i ∈ List.finRange 63, Fin.succ i ≠ (0 : Fin 64) := by
        intro i _ h
        exact absurd (congrArg Fin.val h) (by simp [Fin.val_succ])
      have := afterQ_foldl_apply_ne q (List.finRange 63)
        (Function.update (fun _ => 0) 0 16, Function.update (fun _ => 0) 0 16) 0 h0
      constructor <;>
        simp only [quantLuma, quantChroma, after_block_decode_no_effect_q_impl, if_pos hq,
          this.1, this.2, Function.update_same]
    · have hq0 : q = 0 := Nat.eq_zero_of_not_pos hq
      subst hq0
      exact ⟨rfl, rfl⟩
  · rintro rfl k
    exact ⟨rfl, rfl⟩
  · intro hq i
    have := afterQ_foldl_apply_succ q (List.finRange 63)
      (Function.update (fun _ => 0) 0 16, Function.update (fun _ => 0) 0 16) i
      (List.mem_finRange i) (List.nodup_finRange 63)
    constructor <;>
      simp only [quantLuma, quantChroma, after_block_decode_no_effect_q_impl, if_pos hq,
        this.1, this.2]

/-- Witness for `c1_dequant_setup` at concrete inputs. -/
theorem c1_dequant_setup_witness :
    (0 < 2 ∧ quantLuma 2 (Fin.succ 0) = 2 * gQuantY 0) ∧
    ((0 : Nat) = 0 ∧ quantChroma 0 5 = 16) :=
  ⟨⟨by decide, ((c1_dequant_setup 2).2.2 (by decide) 0).1⟩,
   ⟨rfl, ((c1_dequant_setup 0).2.1 rfl 5).2⟩⟩

lemma upd_apply_ne {f : Nat → Nat} {k v x : Nat} (h : x ≠ k) : upd f k v x = f x := by
  simp [upd, h]

lemma zigIdx_ne_zero {j : Nat} (h : j ≤ 63) : zigIdx j ≠ 0 := by
  have hall : ∀ i : Fin 64, zigIdx i.val ≠ 0 := by decide
  exact hall ⟨j, by omega⟩

lemma rlZscan_ne_zero {j : Nat} (h1 : 1 ≤ j) (h2 : j ≤ 63) : rlZscan j ≠ 0 := by
  have hall : ∀ i : Fin 64, 1 ≤ i.val → rlZscan i.val ≠ 0 := by decide
  exact hall ⟨j, by omega⟩ h1

lemma blockRel2_ne_zero {j : Nat} (h : j ≤ 63) : blockRel2 j ≠ 0 := by
  have hall : ∀ i : Fin 64, blockRel2 i.val ≠ 0 := by decide
  exact hall ⟨j, by omega⟩

lemma blockRel3_ne_zero {j : Nat} (h : j ≤ 63) : blockRel3 j ≠ 0 := by
  have hall : ∀ i : Fin 64, blockRel3 i.val ≠ 0 := by decide
  exact hall ⟨j, by omega⟩

lemma zeroRun_preserve : ∀ k counter (out : Nat → Nat), counter + k ≤ 65 →
    (zeroRun out counter k).1 0 = out 0 := by
  intro k
  induction k using Nat.strong_induction_on with
  | _ k ih =>
    intro counter out h
    match k with
    | 0 => rfl
    | 1 => rfl
    | k+2 =>
      rw [zeroRun, ih (k+1) (by omega) (counter+1) _ (by omega)]
      exact upd_apply_ne (Ne.symm (zigIdx_ne_zero (by omega)))

lemma zeroRun_counter_idx : ∀ k counter (out : Nat → Nat),
    (zeroRun out counter (k+1)).2.1 = counter + k ∧
    (zeroRun out counter (k+1)).2.2 = zigIdx (counter + k) := by
  intro k
  induction k with
  | zero => intro counter out; exact ⟨rfl, rfl⟩
  | succ k ih =>
    intro counter out
    rw [show k + 1 + 1 = k + 2 from rfl, zeroRun]
    exact ⟨((ih (counter+1) _).1).trans (by omega),
      ((ih (counter+1) _).2).trans (congrArg zigIdx (by omega))⟩

lemma incrLoop_preserve (mem tbl : Nat → Nat) : ∀ fuel p counter c (out : Nat → Nat),
    acOk mem fuel p counter = true →
    (incrLoop mem tbl fuel counter c p out).1 0 = out 0 := by
  intro fuel
  induction fuel with
  | zero => intro p counter c out hac; cases hac
  | succ fuel ih =>
    intro p counter c out hac
    rw [incrLoop]
    by_cases hm : mem p = 0xFE00
    · rw [if_pos hm]
    · rw [acOk, if_neg hm, Bool.and_eq_true, decide_eq_true_eq] at hac
      rw [if_neg hm]
      have hne : (0 : Nat) ≠ zigIdx (counter + (mem p >>> 10)) :=
        Ne.symm (zigIdx_ne_zero (by omega))
      by_cases hc : counter + (mem p >>> 10) + 1 < 63
      · rw [if_pos hc]
        exact (ih _ _ _ _ hac.2).trans (upd_apply_ne hne)
      · rw [if_neg hc]
        exact upd_apply_ne hne

lemma runSkipLoop_preserve (mem tbl : Nat → Nat) : ∀ fuel p counter c (out : Nat → Nat),
    counter < 63 → acOk mem fuel p counter = true →
    (runSkipLoop mem tbl fuel counter c p out).1 0 = out 0 ∧
    ((runSkipLoop mem tbl fuel counter c p out).2.2.2 = false →
      (runSkipLoop mem tbl fuel counter c p out).2.2.1 < 63) := by
  intro fuel
  induction fuel with
  | zero => intro p counter c out _ hac; cases hac
  | succ fuel ih =>
    intro p counter c out hcnt hac
    rw [runSkipLoop]
    by_cases hm : mem p = 0xFE00
    · rw [if_pos hm]
      exact ⟨rfl, fun _ => hcnt⟩
    · rw [acOk, if_neg hm, Bool.and_eq_true, decide_eq_true_eq] at hac
      rw [if_neg hm]
      rcases hzr : zeroRun out counter (mem p >>> 10 + 1) with ⟨o1, c1, i1⟩
      have hci := zeroRun_counter_idx (mem p >>> 10) counter out
      rw [hzr] at hci
      obtain ⟨hc1, hi1⟩ : c1 = counter + (mem p >>> 10) ∧ i1 = zigIdx (counter + (mem p >>> 10)) := hci
      have ho1 : o1 0 = out 0 := by
        have := zeroRun_preserve (mem p >>> 10 + 1) counter out (by omega)
        rw [hzr] at this
        exact this
      have hne : (0 : Nat) ≠ i1 := by
        rw [hi1]
        exact Ne.symm (zigIdx_ne_zero (by omega))
      by_cases hstop : c1 + 1 ≥ 63
      · simp only [hzr, if_pos hstop]
        exact ⟨(upd_apply_ne hne).trans ho1, fun h => by cases h⟩
      · simp only [hzr, if_neg hstop]
        have hrec := ih (p+1) (c1+1) (c + (mem p >>> 10) + 1)
          (upd o1 i1 (packCoeff (tbl (c + (mem p >>> 10)))
            ((mem p <<< 22) % 4294967296))) (by omega) (by rw [hc1]; exact hac.2)
        exact ⟨hrec.1.trans ((upd_apply_ne hne).trans ho1), hrec.2⟩

lemma alignZero_preserve (out : Nat → Nat) (c3 : Nat) (h1 : 2 ≤ c3) (h2 : c3 ≤ 63) :
    (alignZero out c3).1 0 = out 0 ∧
    (alignZero out c3).2 % 4 = 0 ∧ c3 ≤ (alignZero out c3).2 ∧ (alignZero out c3).2 ≤ 64 := by
  simp only [alignZero]
  split_ifs with ha hb hc <;> dsimp only <;> refine ⟨?_, by omega, by omega, by omega⟩
  · rw [upd_apply_ne (Ne.symm (@rlZscan_ne_zero (c3+1+1) (by omega) (by omega))),
      upd_apply_ne (Ne.symm (@rlZscan_ne_zero (c3+1) (by omega) (by omega))),
      upd_apply_ne (Ne.symm (@rlZscan_ne_zero c3 (by omega) (by omega)))]
  · rw [upd_apply_ne (Ne.symm (@rlZscan_ne_zero (c3+1) (by omega) (by omega))),
      upd_apply_ne (Ne.symm (@rlZscan_ne_zero c3 (by omega) (by omega)))]
  · rw [upd_apply_ne (Ne.symm (@rlZscan_ne_zero c3 (by omega) (by omega)))]
  · rfl

lemma tailZero_preserve : ∀ fuel c3 (out : Nat → Nat), 1 ≤ c3 → c3 % 4 = 0 → c3 ≤ 64 →
    tailZero out c3 fuel 0 = out 0 := by
  intro fuel
  induction fuel with
  | zero => intro c3 out _ _ _; rfl
  | succ fuel ih =>
    intro c3 out h1 h4 h64
    rw [tailZero]
    by_cases hc : c3 = 64
    · rw [if_pos hc]
    · rw [if_neg hc, ih (c3 + 4) _ (by omega) (by omega) (by omega),
        upd_apply_ne (Ne.symm (@blockRel3_ne_zero c3 (by omega))),
        upd_apply_ne (Ne.symm (@blockRel2_ne_zero c3 (by omega))),
        upd_apply_ne (Ne.symm (@zigIdx_ne_zero c3 (by omega))),
        upd_apply_ne (Ne.symm (@rlZscan_ne_zero c3 (by omega) (by omega)))]

lemma upd_apply_self (f : Nat → Nat) (k v : Nat) : upd f k v k = v := by
  simp [upd]

/-- The source header expression `(*pInput << 21 >> 22)` (computed with the
32-bit wrap-around of `H << 21`) equals the sign extension of the 11-bit
field `H[10:0]` shifted right arithmetically by one. -/
lemma dc_shift_eq (H : Nat) :
    asr (s32OfU32 ((H <<< 21) % 4294967296)) 22 = asr (sext11 H) 1 := by
  have hmod : (H <<< 21) % 4294967296 = (H % 2048) * 2097152 := by
    rw [Nat.shiftLeft_eq]; omega
  have hLlt : H % 2048 < 2048 := Nat.mod_lt _ (by norm_num)
  rw [hmod]
  unfold s32OfU32 sext11 asr
  rw [Int.shiftRight_eq_div_pow, Int.shiftRight_eq_div_pow]
  by_cases hc : H % 2048 < 1024
  · rw [if_pos (show (H % 2048) * 2097152 < 2147483648 by omega), if_pos hc]
    push_cast
    rw [show ((4194304 : Int) = 2097152 * 2) by norm_num,
      mul_comm ((H : Int) % 2048) 2097152,
      show (2097152 * ((H:Int) % 2048)) / (2097152 * 2) = ((H:Int) % 2048) / 2 from
        Int.mul_ediv_mul_of_pos _ _ (by norm_num)]
  · rw [if_neg (show ¬ (H % 2048) * 2097152 < 2147483648 by omega), if_neg hc]
    push_cast
    rw [show ((4194304 : Int) = 2097152 * 2) by norm_num,
      show ((H:Int) % 2048) * 2097152 - 4294967296 = 2097152 * ((H:Int) % 2048 - 2048) by ring,
      show (2097152 * ((H:Int) % 2048 - 2048)) / (2097152 * 2) = ((H:Int) % 2048 - 2048) / 2 from
        Int.mul_ediv_mul_of_pos _ _ (by norm_num)]

lemma headerSlot0_eq (isYBlock : Bool) (H : Nat) :
    headerSlot0 isYBlock H =
      toU32 (((if isYBlock then 1 else 0) : Int) * 1024 + 2 * asr (sext11 H) 1) := by
  rw [headerSlot0, dc_shift_eq]
  cases isYBlock <;> norm_num [Nat.shiftLeft_eq]

/-- **C2 counterexample.**  For the block stream `[0x0400, 0xFE00]`
(header word `H = 0x0400`, no AC words) the claim predicts slot 0 value
`((0) << 10) + 2 · sign_extend_6(H[15:10]) = 2`, but the decoder computes
`2 · ((H << 21) >> 22) = -1024` (stored as a u32): the DC field is the
11-bit field `H[10:0]`, not the 6-bit field `H[15:10]`. -/
theorem c2_counterexample :
    ¬ ((ddv_func7_DecodeMacroBlock_impl (fun i => [0x400, 0xFE00].getD i 0) (fun _ => 16)
        (fun _ => 0) false 0 4).1 0 =
      toU32 (((if false then 1 else 0) : Int) * 1024 +
        2 * sext6 ((fun i => [0x400, 0xFE00].getD i 0) 0 >>> 10))) := by
  decide

/-- **C2 (amended).**  For every block processed by the coefficient
unpacker whose AC run-level words stay inside the zig-zag table
(`acOk`; out-of-range runs read past the 64-entry lookup table, which is
undefined behaviour in the C code), after skipping any leading `0xFE00`
words the block header word `H` is decoded so that output slot 0 receives
`((isLuma ? 1 : 0) << 10) + 2 * DC_signed`, where `DC_signed` is the
**sign extension of the 11-bit field `H[10:0]` arithmetically shifted
right by one** (not the 6-bit field `H[15:10]`). -/
theorem c2_block_header (mem tbl out0 : Nat → Nat) (isYBlock : Bool) (p0 skipFuel : Nat)
    (hH : mem (skipEOB mem p0 skipFuel) ≠ 0xFE00)
    (hac : acOk mem 64 (skipEOB mem p0 skipFuel + 1) 0 = true) :
    (ddv_func7_DecodeMacroBlock_impl mem tbl out0 isYBlock p0 skipFuel).1 0 =
      toU32 (((if isYBlock then 1 else 0) : Int) * 1024 +
        2 * asr (sext11 (mem (skipEOB mem p0 skipFuel))) 1) := by
  rw [← headerSlot0_eq]
  simp only [ddv_func7_DecodeMacroBlock_impl]
  by_cases hodd : mem (skipEOB mem p0 skipFuel) % 2 = 1
  · rw [if_pos hodd,
      incrLoop_preserve mem tbl 64 _ 0 0 _ hac, upd_apply_self]
  · rw [if_neg hodd]
    rcases hrs : runSkipLoop mem tbl 64 0 0 (skipEOB mem p0 skipFuel + 1)
        (upd out0 0 (headerSlot0 isYBlock (mem (skipEOB mem p0 skipFuel))))
      with ⟨o1, p1, c1, e1⟩
    have hpres := runSkipLoop_preserve mem tbl 64 (skipEOB mem p0 skipFuel + 1) 0 0
      (upd out0 0 (headerSlot0 isYBlock (mem (skipEOB mem p0 skipFuel))))
      (by norm_num) hac
    rw [hrs] at hpres
    dsimp only at hpres
    have ho1 : o1 0 = headerSlot0 isYBlock (mem (skipEOB mem p0 skipFuel)) := by
      rw [hpres.1, upd_apply_self]
    simp only [hrs]
    cases e1 with
    | true => exact ho1
    | false =>
      have hc1 : c1 < 63 := hpres.2 rfl
      simp only [Bool.false_eq_true, if_false]
      by_cases hz : c1 ≠ 0
      · rw [if_pos hz]
        rcases haz : alignZero o1 (c1 + 1) with ⟨o2, c3⟩
        have halign := alignZero_preserve o1 (c1 + 1) (by omega) (by omega)
        rw [haz] at halign
        dsimp only at halign
        simp only [haz]
        rw [tailZero_preserve 16 c3 o2 (by omega) halign.2.1 halign.2.2.2,
          halign.1, ho1]
      · rw [if_neg hz]
        show memset63 o1 0 = _
        rw [show memset63 o1 0 = o1 0 by simp [memset63], ho1]


/-- Witness for `c2_block_header` at a concrete block stream. -/
theorem c2_block_header_witness :
    exampleBlockMem (skipEOB exampleBlockMem 0 4) ≠ 0xFE00 ∧
    (ddv_func7_DecodeMacroBlock_impl exampleBlockMem (fun _ => 16) (fun _ => 0) true 0 4).1 0 =
      toU32 (((if true then 1 else 0) : Int) * 1024 +
        2 * asr (sext11 (exampleBlockMem (skipEOB exampleBlockMem 0 4))) 1) :=
  ⟨by decide,
   c2_block_header exampleBlockMem (fun _ => 16) (fun _ => 0) true 0 4 (by decide) (by decide)⟩

lemma updZ_ne {f : Nat → Int} {k : Nat} {v : Int} {x : Nat} (h : x ≠ k) : updZ f k v x = f x := by
  simp [updZ, h]

lemma idctLine_apply_ne (src : Nat → Int) (p q sh : Nat) (dest : Nat → Int) (i x : Nat)
    (h : ∀ r, r < 8 → x ≠ r * p + i * q) :
    idctLine src p q sh dest i x = dest x := by
  simp only [idctLine]
  rw [updZ_ne (h 7 (by norm_num)), updZ_ne (h 6 (by norm_num)), updZ_ne (h 5 (by norm_num)),
    updZ_ne (h 4 (by norm_num)), updZ_ne (h 3 (by norm_num)), updZ_ne (h 2 (by norm_num)),
    updZ_ne (h 1 (by norm_num)), updZ_ne (h 0 (by norm_num))]

lemma idctLine_apply_81 (src : Nat → Int) (sh : Nat) (dest : Nat → Int) (i k : Nat)
    (hk : k < 8) :
    idctLine src 8 1 sh dest i (k * 8 + i * 1) =
      butterflySpec (fun m => src (m * 8 + i * 1)) sh k := by
  interval_cases k <;>
    · simp only [idctLine, butterflySpec, updZ]
      norm_num

lemma idctLine_apply_18 (src : Nat → Int) (sh : Nat) (dest : Nat → Int) (i k : Nat)
    (hk : k < 8) :
    idctLine src 1 8 sh dest i (k * 1 + i * 8) =
      butterflySpec (fun m => src (m * 1 + i * 8)) sh k := by
  interval_cases k <;>
    · simp only [idctLine, butterflySpec, updZ]
      norm_num

lemma foldl_idctLine_ne_81 (src : Nat → Int) (sh : Nat) :
    ∀ (l : List Nat) (init : Nat → Int) (x : Nat),
      (∀ j ∈ l, ∀ r, r < 8 → x ≠ r * 8 + j * 1) →
      (l.foldl (idctLine src 8 1 sh) init) x = init x := by
  intro l
  induction l with
  | nil => intro init x _; rfl
  | cons a t ih =>
    intro init x h
    rw [List.foldl_cons, ih _ _ (fun j hj => h j (List.mem_cons_of_mem _ hj)),
      idctLine_apply_ne _ _ _ _ _ _ _ (h a (List.mem_cons_self _ _))]

lemma foldl_idctLine_ne_18 (src : Nat → Int) (sh : Nat) :
    ∀ (l : List Nat) (init : Nat → Int) (x : Nat),
      (∀ j ∈ l, ∀ r, r < 8 → x ≠ r * 1 + j * 8) →
      (l.foldl (idctLine src 1 8 sh) init) x = init x := by
  intro l
  induction l with
  | nil => intro init x _; rfl
  | cons a t ih =>
    intro init x h
    rw [List.foldl_cons, ih _ _ (fun j hj => h j (List.mem_cons_of_mem _ hj)),
      idctLine_apply_ne _ _ _ _ _ _ _ (h a (List.mem_cons_self _ _))]

lemma foldl_idctLine_81 (src : Nat → Int) (sh : Nat) :
    ∀ (l : List Nat) (init : Nat → Int) (i k : Nat), i ∈ l → l.Nodup →
      (∀ j ∈ l, j < 8) → i < 8 → k < 8 →
      (l.foldl (idctLine src 8 1 sh) init) (k * 8 + i * 1) =
        butterflySpec (fun m => src (m * 8 + i * 1)) sh k := by
  intro l
  induction l with
  | nil => intro init i k h; cases h
  | cons a t ih =>
    intro init i k hmem hnodup hlt hi hk
    rw [List.foldl_cons]
    rcases List.mem_cons.mp hmem with rfl | hmem'
    · rw [foldl_idctLine_ne_81 src sh t _ _ ?_, idctLine_apply_81 src sh init i k hk]
      intro j hj r hr
      have hji : j ≠ i := fun h => (List.nodup_cons.mp hnodup).1 (h ▸ hj)
      have hjlt : j < 8 := hlt j (List.mem_cons_of_mem _ hj)
      omega
    · exact ih _ i k hmem' (List.nodup_cons.mp hnodup).2
        (fun j hj => hlt j (List.mem_cons_of_mem _ hj)) hi hk

lemma foldl_idctLine_18 (src : Nat → Int) (sh : Nat) :
    ∀ (l : List Nat) (init : Nat → Int) (i k : Nat), i ∈ l → l.Nodup →
      (∀ j ∈ l, j < 8) → i < 8 → k < 8 →
      (l.foldl (idctLine src 1 8 sh) init) (k * 1 + i * 8) =
        butterflySpec (fun m => src (m * 1 + i * 8)) sh k := by
  intro l
  induction l with
  | nil => intro init i k h; cases h
  | cons a t ih =>
    intro init i k hmem hnodup hlt hi hk
    rw [List.foldl_cons]
    rcases List.mem_cons.mp hmem with rfl | hmem'
    · rw [foldl_idctLine_ne_18 src sh t _ _ ?_, idctLine_apply_18 src sh init i k hk]
      intro j hj r hr
      have hji : j ≠ i := fun h => (List.nodup_cons.mp hnodup).1 (h ▸ hj)
      have hjlt : j < 8 := hlt j (List.mem_cons_of_mem _ hj)
      omega
    · exact ih _ i k hmem' (List.nodup_cons.mp hnodup).2
        (fun j hj => hlt j (List.mem_cons_of_mem _ hj)) hi hk

lemma half_idct_apply_81 (src : Nat → Int) (sh i k : Nat) (hi : i < 8) (hk : k < 8) :
    half_idct src 8 1 sh (k * 8 + i) = butterflySpec (fun m => src (m * 8 + i)) sh k := by
  have := foldl_idctLine_81 src sh (List.range 8) (fun _ => 0) i k
    (List.mem_range.mpr hi) (List.nodup_range 8) (fun j hj => List.mem_range.mp hj) hi hk
  simpa [half_idct, Nat.mul_one] using this

lemma half_idct_apply_18 (src : Nat → Int) (sh i k : Nat) (hi : i < 8) (hk : k < 8) :
    half_idct src 1 8 sh (k + i * 8) = butterflySpec (fun m => src (m + i * 8)) sh k := by
  have := foldl_idctLine_18 src sh (List.range 8) (fun _ => 0) i k
    (List.mem_range.mpr hi) (List.nodup_range 8) (fun j hj => List.mem_range.mp hj) hi hk
  simpa [half_idct, Nat.mul_one] using this

lemma butterflySpec_congr {s s' : Nat → Int} (sh k : Nat) (hs : ∀ m, m < 8 → s m = s' m) :
    butterflySpec s sh k = butterflySpec s' sh k := by
  have h0 := hs 0 (by norm_num)
  have h1 := hs 1 (by norm_num)
  have h2 := hs 2 (by norm_num)
  have h3 := hs 3 (by norm_num)
  have h4 := hs 4 (by norm_num)
  have h5 := hs 5 (by norm_num)
  have h6 := hs 6 (by norm_num)
  have h7 := hs 7 (by norm_num)
  rcases k with _|_|_|_|_|_|_|_|k <;>
    simp only [butterflySpec, h0, h1, h2, h3, h4, h5, h6, h7]

/-- **C5.**  For every 64-slot coefficient block, the IDCT equals two
applications of the 8-point butterfly with exactly the listed multipliers
(8192, 10703/10704, 4433; 11363/11362, 9633, 6437/6436, 2260/2259/2261),
outputs `d[0..3] = (E+O) >> shift`, `d[7..4] = (E−O) >> shift` with
arithmetic shifts; pass 1 uses pitch 8 and shift 11 on the sign-extended
low 16 bits of each packed input slot, pass 2 uses pitch 1 and shift 18. -/
theorem c5_idct_butterfly (input : Nat → Nat) (j : Nat) (hj : j < 64) :
    idct input j = idctSpec input j := by
  have hmod : j % 8 < 8 := Nat.mod_lt _ (by norm_num)
  have hdiv : j / 8 < 8 := by omega
  have hj' : j = (j % 8) + (j / 8) * 8 := by omega
  simp only [idct, idctSpec]
  conv_lhs => rw [hj']
  rw [half_idct_apply_18 _ 18 (j/8) (j%8) hdiv hmod]
  apply butterflySpec_congr
  intro m hm
  have hpos : m + (j/8) * 8 = (j/8) * 8 + m := by omega
  rw [hpos, half_idct_apply_81 _ 11 m (j/8) hm hdiv]
  have e1 : (m + 8 * (j/8)) % 8 = m := by omega
  have e2 : (m + 8 * (j/8)) / 8 = j / 8 := by omega
  rw [e1, e2]

/-- Witness for `c5_idct_butterfly` at a concrete slot buffer and index. -/
theorem c5_idct_butterfly_witness :
    (9 : Nat) < 64 ∧ idct (fun i => 3 * i) 9 = idctSpec (fun i => 3 * i) 9 :=
  ⟨by decide, c5_idct_butterfly (fun i => 3 * i) 9 (by decide)⟩

lemma mem_ite_singleton {α : Type} {c : Prop} [Decidable c] {a b : α} :
    (b ∈ if c then [a] else []) ↔ c ∧ b = a := by
  split_ifs with h <;> simp [h]

lemma mem_blitWrites {w h xoff yoff px py : Nat} :
    (px, py) ∈ blitWrites w h xoff yoff ↔
      xoff ≤ px ∧ px < xoff + 16 ∧ yoff ≤ py ∧ py < yoff + 16 ∧ px < w ∧ py < h := by
  simp only [blitWrites, List.mem_flatMap, List.mem_range, mem_ite_singleton, Prod.mk.injEq]
  constructor
  · rintro ⟨x, hx, y, hy, ⟨hxw, hyh⟩, rfl, rfl⟩
    omega
  · rintro ⟨h1, h2, h3, h4, h5, h6⟩
    exact ⟨px - xoff, by omega, py - yoff, by omega, ⟨by omega, by omega⟩, by omega, by omega⟩

lemma nodup_blitWrites (w h xoff yoff : Nat) : (blitWrites w h xoff yoff).Nodup := by
  rw [blitWrites, List.nodup_flatMap]
  constructor
  · intro x _
    rw [List.nodup_flatMap]
    constructor
    · intro y _
      split_ifs <;> simp
    · refine (List.nodup_range 16).imp ?_
      intro y1 y2 hne z hz1 hz2
      rw [mem_ite_singleton] at hz1 hz2
      have hyy := (Prod.mk.injEq _ _ _ _).mp (hz1.2.symm.trans hz2.2) |>.2
      exact hne (by omega : y1 = y2)
  · refine (List.nodup_range 16).imp ?_
    intro x1 x2 hne z hz1 hz2
    simp only [List.mem_flatMap, List.mem_range, mem_ite_singleton] at hz1 hz2
    obtain ⟨y1, _, _, rfl⟩ := hz1
    obtain ⟨y2, _, _, heq⟩ := hz2
    have hxx := (Prod.mk.injEq _ _ _ _).mp heq |>.1
    exact hne (by omega : x1 = x2)

lemma mem_mbWalk {w h mbX mbY px py : Nat} :
    ((px, py) ∈ (List.range mbX).flatMap fun xBlock =>
      (List.range mbY).flatMap fun yBlock =>
        blitWrites w h (16 * xBlock) (16 * yBlock)) ↔
      ∃ bx, bx < mbX ∧ ∃ bly, bly < mbY ∧ 16 * bx ≤ px ∧ px < 16 * bx + 16 ∧
        16 * bly ≤ py ∧ py < 16 * bly + 16 ∧ px < w ∧ py < h := by
  simp only [List.mem_flatMap, List.mem_range, mem_blitWrites]

lemma nodup_mbWalk (w h mbX mbY : Nat) :
    ((List.range mbX).flatMap fun xBlock =>
      (List.range mbY).flatMap fun yBlock =>
        blitWrites w h (16 * xBlock) (16 * yBlock)).Nodup := by
  rw [List.nodup_flatMap]
  constructor
  · intro bx _
    rw [List.nodup_flatMap]
    refine ⟨fun bly _ => nodup_blitWrites _ _ _ _, (List.nodup_range _).imp ?_⟩
    intro y1 y2 hne z hz1 hz2
    obtain ⟨z1, z2⟩ := z
    rw [mem_blitWrites] at hz1 hz2
    exact hne (by omega : y1 = y2)
  · refine (List.nodup_range _).imp ?_
    intro x1 x2 hne z hz1 hz2
    obtain ⟨z1, z2⟩ := z
    simp only [List.mem_flatMap, List.mem_range, mem_blitWrites] at hz1 hz2
    obtain ⟨y1, _, hm1⟩ := hz1
    obtain ⟨y2, _, hm2⟩ := hz2
    exact hne (by omega : x1 = x2)

lemma mem_parseVideoFrameWrites {w h px py : Nat} :
    (px, py) ∈ parseVideoFrameWrites w h ↔ px < w ∧ py < h := by
  rw [parseVideoFrameWrites]
  by_cases hz : (w / 16 + (if w % 16 ≠ 0 then 1 else 0) = 0 ∨
      h / 16 + (if h % 16 ≠ 0 then 1 else 0) = 0)
  · rw [if_pos hz]
    have hwh : w = 0 ∨ h = 0 := by
      rcases hz with hz | hz
      · left
        by_cases hw : w % 16 ≠ 0 <;> simp [hw] at hz <;> omega
      · right
        by_cases hh : h % 16 ≠ 0 <;> simp [hh] at hz <;> omega
    simp only [List.not_mem_nil, false_iff]
    omega
  · rw [if_neg hz, mem_mbWalk]
    constructor
    · rintro ⟨bx, hbx, bly, hby, hm⟩
      omega
    · rintro ⟨hw, hh⟩
      refine ⟨px / 16, ?_, py / 16, ?_, by omega, by omega, by omega, by omega, hw, hh⟩
      · by_cases hw16 : w % 16 ≠ 0
        · rw [if_pos hw16]
          omega
        · rw [if_neg hw16]
          omega
      · by_cases hh16 : h % 16 ≠ 0
        · rw [if_pos hh16]
          omega
        · rw [if_neg hh16]
          omega

lemma nodup_parseVideoFrameWrites (w h : Nat) : (parseVideoFrameWrites w h).Nodup := by
  rw [parseVideoFrameWrites]
  by_cases hz : (w / 16 + (if w % 16 ≠ 0 then 1 else 0) = 0 ∨
      h / 16 + (if h % 16 ≠ 0 then 1 else 0) = 0)
  · rw [if_pos hz]
    exact List.nodup_nil
  · rw [if_neg hz]
    exact nodup_mbWalk w h _ _

/-- **C6.**  For every frame whose width or height is not a multiple of
16, the decoder never writes a pixel at `x ≥ width` or `y ≥ height`, and
every pixel with `x < width` and `y < height` is written exactly once per
frame. -/
theorem c6_pixel_bounds (width height : Nat)
    (hnm : width % 16 ≠ 0 ∨ height % 16 ≠ 0) :
    (∀ px py, width ≤ px ∨ height ≤ py →
      (px, py) ∉ parseVideoFrameWrites width height) ∧
    (∀ px py, px < width → py < height →
      @List.count (Nat × Nat) instBEqOfDecidableEq (px, py)
        (parseVideoFrameWrites width height) = 1) := by
  constructor
  · intro px py hout hmem
    rw [mem_parseVideoFrameWrites] at hmem
    omega
  · intro px py hx hy
    exact List.count_eq_one_of_mem (nodup_parseVideoFrameWrites width height)
      (mem_parseVideoFrameWrites.mpr ⟨hx, hy⟩)

/-- Witness for `c6_pixel_bounds` at the 300×200 frame of the spec's
scenario 2. -/
theorem c6_pixel_bounds_witness :
    ((300 : Nat) % 16 ≠ 0 ∨ (200 : Nat) % 16 ≠ 0) ∧
    (300, 10) ∉ parseVideoFrameWrites 300 200 ∧
    @List.count (Nat × Nat) instBEqOfDecidableEq (299, 199)
      (parseVideoFrameWrites 300 200) = 1 :=
  ⟨by decide,
   (c6_pixel_bounds 300 200 (by decide)).1 300 10 (Or.inl (by decide)),
   (c6_pixel_bounds 300 200 (by decide)).2 299 199 (by decide) (by decide)⟩

lemma bsRefill_out (env : BSEnv) (st : BSSt) : (bsRefill env st).out = st.out := by
  rw [bsRefill]
  split_ifs <;> rfl

/-- **C4.**  The video bitstream decode returns exactly at an EOB check —
a state entered only right after an emitted `0xFE00` word — when the next
11-bit field equals `0x3FF`, and the value returned is the 16-bit word
captured from the start of the frame data; when the field differs from
`0x3FF`, the field masked to 11 bits is emitted as the next output word
and decoding continues. -/
theorem c4_end_of_frame (env : BSEnv) :
    (∀ loc st r, bsStep env (loc, st) = .inr r →
      (∃ i, loc = .eobCheck i) ∧ ExtractBits st.work 11 = 0x3FF ∧ r = bsWord env 0) ∧
    (∀ i st, ExtractBits st.work 11 = 0x3FF →
      bsStep env (.eobCheck i, st) = .inr (bsWord env 0)) ∧
    (∀ i st, ExtractBits st.work 11 ≠ 0x3FF → ∃ st',
      bsStep env (.eobCheck i, st) =
        .inl ((if 3 ≤ i then BSLoc.readCode else BSLoc.setNext i), st') ∧
      st'.out = (ExtractBits st.work 11 &&& 0x7FF) :: st.out) ∧
    (∀ loc st i st', bsStep env (loc, st) = .inl (.eobCheck i, st') →
      st'.out.head? = some 0xFE00) ∧
    (∀ fuel r, decode_bitstream env fuel = .inr r → r = bsWord env 0) := by
  have hret : ∀ loc st r, bsStep env (loc, st) = .inr r →
      (∃ i, loc = .eobCheck i) ∧ ExtractBits st.work 11 = 0x3FF ∧ r = bsWord env 0 := by
    intro loc st r hstep
    cases loc with
    | readCode =>
      simp only [bsStep] at hstep
      split_ifs at hstep <;> simp at hstep
    | checkWord i =>
      simp only [bsStep] at hstep
      split_ifs at hstep <;> simp at hstep
    | eobCheck i =>
      simp only [bsStep] at hstep
      split_ifs at hstep with hv
      · injection hstep with hr
        exact ⟨⟨i, rfl⟩, hv, hr.symm⟩
      all_goals simp at hstep
    | setNext i =>
      simp only [bsStep] at hstep
      split_ifs at hstep <;> simp at hstep
  refine ⟨hret, ?_, ?_, ?_, ?_⟩
  · intro i st hv
    simp only [bsStep, if_pos hv]
  · intro i st hv
    refine ⟨bsRefill env (bsEmit (ExtractBits st.work 11 &&& 0x7FF)
        { bsConsume 11 st with raw := ExtractBits st.work 11 &&& 0x7FF }), ?_, ?_⟩
    · simp only [bsStep, if_neg hv]
      split_ifs <;> rfl
    · rw [bsRefill_out]
      show (ExtractBits st.work 11 &&& 0x7FF) % 65536 :: st.out = _
      rw [Nat.mod_eq_of_lt (lt_of_le_of_lt Nat.and_le_right (by norm_num))]
  · intro loc st i st' hstep
    cases loc with
    | readCode =>
      simp only [bsStep] at hstep
      split_ifs at hstep <;> simp at hstep
    | checkWord j =>
      simp only [bsStep] at hstep
      split_ifs at hstep with h1 h2 h3 <;> simp only [Sum.inl.injEq, Prod.mk.injEq] at hstep
      · exact absurd hstep.1 (by simp)
      · rw [← hstep.2]
        simp [bsEmit, h2]
      · exact absurd hstep.1 (by simp)
      · exact absurd hstep.1 (by simp)
    | eobCheck j =>
      simp only [bsStep] at hstep
      split_ifs at hstep <;> simp at hstep
    | setNext j =>
      simp only [bsStep] at hstep
      split_ifs at hstep <;> simp at hstep
  · have hrun : ∀ fuel s r, bsRun env fuel s = .inr r → r = bsWord env 0 := by
      intro fuel
      induction fuel with
      | zero =>
        intro s r h
        simp [bsRun] at h
      | succ fuel ih =>
        intro s r h
        rw [bsRun] at h
        cases hstep : bsStep env s with
        | inl s' =>
          rw [hstep] at h
          exact ih s' r h
        | inr r' =>
          rw [hstep] at h
          injection h with h'
          obtain ⟨s1, s2⟩ := s
          exact h' ▸ (hret s1 s2 r' hstep).2.2
    intro fuel r h
    exact hrun fuel _ r h

/-- Witness for `c4_end_of_frame`: each conjunct applied at a concrete
machine state or run. -/
theorem c4_end_of_frame_witness :
    ((∃ i, BSLoc.eobCheck 1 = BSLoc.eobCheck i) ∧
      ExtractBits (0x7FE00000 : Nat) 11 = 0x3FF ∧ (0x1234 : Nat) = bsWord envC4Ret 0) ∧
    bsStep envC4Ret (.eobCheck 2, ⟨0x7FE00000, 0, 0, 0, 0, []⟩) = .inr (bsWord envC4Ret 0) ∧
    (∃ st', bsStep envC4Ret (.eobCheck 1, ⟨0, 0, 0, 0, 0, []⟩) =
        .inl ((if 3 ≤ 1 then BSLoc.readCode else BSLoc.setNext 1), st') ∧
      st'.out = (ExtractBits (0 : Nat) 11 &&& 0x7FF) :: []) ∧
    (bsEmit 0xFE00 (⟨0, 0, 0, 0, 0xFE00, []⟩ : BSSt)).out.head? = some 0xFE00 ∧
    (0x1234 : Nat) = bsWord envC4Ret 0 :=
  ⟨(c4_end_of_frame envC4Ret).1 (.eobCheck 1) ⟨0x7FE00000, 0, 0, 0, 0, []⟩ 0x1234 (by decide),
   (c4_end_of_frame envC4Ret).2.1 2 ⟨0x7FE00000, 0, 0, 0, 0, []⟩ (by decide),
   (c4_end_of_frame envC4Ret).2.2.1 1 ⟨0, 0, 0, 0, 0, []⟩ (by decide),
   (c4_end_of_frame envC4Ret).2.2.2.1 (.checkWord 1) ⟨0, 0, 0, 0, 0xFE00, []⟩ 1
     (bsEmit 0xFE00 ⟨0, 0, 0, 0, 0xFE00, []⟩) (by decide),
   (c4_end_of_frame envC4Ret).2.2.2.2 3 0x1234 (by decide)⟩

/-- **C8 counterexample.**  Running the source machine and the machine
that implements the claim's escape behaviour ("resume at the next output
field of the same Tbl2 entry") on the same concrete tables and stream
produces different outputs: after the escape emission the source re-reads
a fresh `table_index_2` instead of visiting the entry's second word. -/
theorem c8_counterexample :
    bsOut (bsRun envC8 4 (.readCode, bsInit envC8)) ≠
      bsOut (bsRunSpecC8 envC8 4 (.readCode, bsInit envC8)) := by
  decide

/-- **C8 (amended).**  Whenever a word loaded from a Tbl2 entry during
video bitstream decode has low 16 bits `0x7C1F`, the decoder emits the
current top 16 bits of the work register, refills the work register from
the next raw 16-bit word (shifted by `usedBitCount`, OR-ed over the
register shifted left 16), advances the raw cursor — and resumes decoding
at the top of the code loop (a fresh `table_index_2` read), skipping the
remaining output fields of the current Tbl2 entry. -/
theorem c8_escape (env : BSEnv) (i : Nat) (st : BSSt)
    (hesc : st.raw % 65536 = 0x7C1F) :
    bsStep env (.checkWord i, st) = .inl (.readCode, OutputWordAndAdvance env st) ∧
    (OutputWordAndAdvance env st).out = (st.work >>> 16) % 65536 :: st.out ∧
    (OutputWordAndAdvance env st).work =
      ((bsWord env st.cur <<< st.used) % 4294967296) ||| (st.work <<< 16) % 4294967296 ∧
    (OutputWordAndAdvance env st).cur = st.cur + 1 := by
  refine ⟨?_, rfl, rfl, rfl⟩
  simp only [bsStep, if_pos hesc]

/-- Witness for `c8_escape` at a concrete state. -/
theorem c8_escape_witness :
    bsStep envC8 (.checkWord 1, ⟨0xABCD0000, 3, 5, 7, 0x7C1F, []⟩) =
      .inl (.readCode, OutputWordAndAdvance envC8 ⟨0xABCD0000, 3, 5, 7, 0x7C1F, []⟩) :=
  (c8_escape envC8 1 ⟨0xABCD0000, 3, 5, 7, 0x7C1F, []⟩ (by decide)).1

lemma decodeSampleStep_parts (mem : Nat → Nat) (flag w1 w2 w3 : Int) (stride : Nat)
    (acc : ADSt × (Int × Int × Int) × Nat × List (Nat × Nat)) (k : Nat) :
    ∃ st' pv' val,
      decodeSampleStep mem flag w1 w2 w3 stride acc k =
        (st', pv', acc.2.2.1 + stride, acc.2.2.2 ++ [(acc.2.2.1, val)]) :=
  ⟨_, _, _, rfl⟩

lemma foldl_decodeSampleStep_log (mem : Nat → Nat) (flag w1 w2 w3 : Int) (stride : Nat) :
    ∀ (l : List Nat) (st : ADSt) (pv : Int × Int × Int) (pos : Nat) (log : List (Nat × Nat)),
      ((l.foldl (decodeSampleStep mem flag w1 w2 w3 stride) (st, pv, pos, log)).2.2.2).map
          Prod.fst =
        log.map Prod.fst ++ (List.range l.length).map (fun k => pos + stride * k) := by
  intro l
  induction l with
  | nil => intro st pv pos log; simp
  | cons a t ih =>
    intro st pv pos log
    rw [List.foldl_cons]
    obtain ⟨st', pv', val, heq⟩ := decodeSampleStep_parts mem flag w1 w2 w3 stride
      (st, pv, pos, log) a
    rw [heq, ih]
    simp only [List.map_append, List.map_cons, List.map_nil, List.length_cons,
      List.range_succ_eq_map, List.map_map, List.append_assoc]
    congr 1
    show [pos] ++ _ = (fun k => pos + stride * k) 0 :: _
    simp only [Nat.mul_zero, Nat.add_zero, List.singleton_append]
    congr 1
    refine List.map_congr_left ?_
    intro k _
    show pos + stride + stride * k = pos + stride * (k + 1)
    rw [Nat.mul_succ]
    omega

lemma decode_16bit_log (mem : Nat → Nat) (stride outBase n : Nat) (isLast : Bool)
    (st : ADSt) :
    ((decode_16bit_audio_frame mem stride outBase n isLast st).2).map Prod.fst =
      (List.range (max 3 n)).map (fun k => outBase + stride * k) := by
  simp only [decode_16bit_audio_frame]
  by_cases hn : 3 < n
  · rw [if_pos hn]
    rw [foldl_decodeSampleStep_log, max_eq_right (by omega)]
    simp only [List.map_cons, List.map_nil]
    conv_rhs => rw [show n = 3 + (n - 3) by omega]
    rw [List.range_add, List.map_append, List.map_map, List.length_range]
    congr 1
    · rw [show (3 : Nat) = 2 + 1 from rfl, List.range_succ, show (2 : Nat) = 1 + 1 from rfl,
        List.range_succ, show (1 : Nat) = 0 + 1 from rfl, List.range_succ, List.range_zero]
      simp [Nat.mul_comm]
    · refine List.map_congr_left ?_
      intro k _
      show outBase + 3 * stride + stride * k = outBase + stride * (3 + k)
      rw [Nat.mul_add]
      omega
  · rw [if_neg hn, max_eq_left (by omega)]
    show [outBase, outBase + stride, outBase + 2 * stride] = _
    rw [show (3 : Nat) = 2 + 1 by rfl, List.range_succ, show (2 : Nat) = 1 + 1 by rfl,
      List.range_succ, show (1 : Nat) = 0 + 1 by rfl, List.range_succ, List.range_zero]
    simp [Nat.mul_comm]

/-- **C3 counterexample.**  With `samplesPerFrame = 2` the claim predicts
exactly 2 samples per channel, but the decoder always writes its three
seed samples: channel 0 receives 3 writes. -/
theorem c3_counterexample :
    ¬ ((decode_audio_frame (fun _ => 0) 2).1.length = 2) := by
  decide

/-- **C3 (amended).**  For every audio frame the decoder always decodes
two channels at stride 2 — `Masher::decode_audio_frame` sets
`mAudioFrameSizeBytes = 2` unconditionally, so there is no mono/stride-1
path — writing exactly `max 3 samplesPerFrame` samples per channel
(the three seeds are written even when `samplesPerFrame < 3`; for
`samplesPerFrame ≥ 3`, exactly `samplesPerFrame` samples per channel):
channel 0 at even slots `0, 2, 4, …` and channel 1 at odd slots
`1, 3, 5, …`, in order. -/
theorem c3_sample_positions (mem : Nat → Nat) (n : Nat) :
    (decode_audio_frame mem n).1.map Prod.fst =
      (List.range (max 3 n)).map (fun k => 2 * k) ∧
    (decode_audio_frame mem n).2.map Prod.fst =
      (List.range (max 3 n)).map (fun k => 2 * k + 1) := by
  constructor
  · show ((decode_16bit_audio_frame mem 2 0 n false
        (SetupAudioDecodePtrs mem)).2).map Prod.fst = _
    rw [decode_16bit_log]
    exact List.map_congr_left fun k _ => by omega
  · show ((decode_16bit_audio_frame mem 2 1 n true
        (decode_16bit_audio_frame mem 2 0 n false
          (SetupAudioDecodePtrs mem)).1).2).map Prod.fst = _
    rw [decode_16bit_log]
    exact List.map_congr_left fun k _ => by omega

/-- **C7.**  One non-seed sample step: given predictor state
`(v1, v2, v3)` and the accepted residual `s`, the predictor value is
`P = (v1 + 5·v3 − 4·v2) >> 1`, the state rotates to `(v2, v3, new)`, and
the new sample is `expand(s + signTable(P))` (each argument truncated to
s16, as the code casts it) when `useTableFlag ≠ 0`, otherwise `P + s`
truncated to 16 bits; the sample's u16 image is emitted at the current
strided position. -/
theorem c7_predictor_step (mem : Nat → Nat) (useTableFlag w1 w2 w3 : Int) (stride : Nat)
    (st : ADSt) (v1 v2 v3 : Int) (pos : Nat) (log : List (Nat × Nat)) (k : Nat) :
    decodeSampleStep mem useTableFlag w1 w2 w3 stride (st, (v1, v2, v3), pos, log) k =
      ((readResidual mem w1 w2 w3 st).2,
       (v2, v3,
        if useTableFlag ≠ 0 then
          sub_408F50 (toS16 ((readResidual mem w1 w2 w3 st).1 +
            GetSoundTableValue (toS16 (asr (v1 + 5 * v3 - 4 * v2) 1))))
        else toS16 (asr (v1 + 5 * v3 - 4 * v2) 1 + (readResidual mem w1 w2 w3 st).1)),
       pos + stride,
       log ++ [(pos, toU16 (
        if useTableFlag ≠ 0 then
          sub_408F50 (toS16 ((readResidual mem w1 w2 w3 st).1 +
            GetSoundTableValue (toS16 (asr (v1 + 5 * v3 - 4 * v2) 1))))
        else toS16 (asr (v1 + 5 * v3 - 4 * v2) 1 + (readResidual mem w1 w2 w3 st).1)))]) := by
  rcases hr : readResidual mem w1 w2 w3 st with ⟨sp, st'⟩
  simp only [decodeSampleStep, hr]
  rw [show v1 + (5 * v3 - 4 * v2) = v1 + 5 * v3 - 4 * v2 from by ring]

lemma applyWrites_not_mem (log : List (Nat × Nat)) :
    ∀ (buf : Nat → Nat) (p : Nat), p ∉ log.map Prod.fst → applyWrites buf log p = buf p := by
  induction log with
  | nil => intro buf p _; rfl
  | cons kv t ih =>
    intro buf p hp
    rw [List.map_cons, List.mem_cons, not_or] at hp
    rw [applyWrites, List.foldl_cons]
    have := ih (fun x => if x = kv.1 then kv.2 else buf x) p hp.2
    rw [applyWrites] at this
    rw [this]
    show (if p = kv.1 then kv.2 else buf p) = buf p
    rw [if_neg hp.1]

/-- **C10.**  `Masher::decode_audio_frame` zero-fills the first
`4 * samplesPerFrame` bytes (`2 * samplesPerFrame` 16-bit slots) of the
output buffer before decoding, so after the frame every slot the two
per-channel decodes did not write holds 0 if it lies in the zero-filled
range, and its original content otherwise. -/
theorem c10_zero_fill (mem : Nat → Nat) (n : Nat) (buf : Nat → Nat) (p : Nat) :
    decode_audio_frame_buffer mem n buf p =
      if p ∈ ((decode_audio_frame mem n).1.map Prod.fst) ++
             ((decode_audio_frame mem n).2.map Prod.fst)
      then decode_audio_frame_buffer mem n buf p
      else if p < 2 * n then 0 else buf p := by
  by_cases hp : p ∈ ((decode_audio_frame mem n).1.map Prod.fst) ++
      ((decode_audio_frame mem n).2.map Prod.fst)
  · rw [if_pos hp]
  · rw [if_neg hp]
    rw [List.mem_append, not_or] at hp
    rw [decode_audio_frame_buffer]
    rw [applyWrites_not_mem _ _ _ hp.2, applyWrites_not_mem _ _ _ hp.1]

lemma bytes4_decomp (bytes : List (Fin 256)) (h : 4 ≤ bytes.length) :
    ∃ b0 b1 b2 b3 t, bytes = b0 :: b1 :: b2 :: b3 :: t := by
  rcases bytes with _ | ⟨b0, l⟩
  · exact absurd h (by simp)
  rcases l with _ | ⟨b1, l⟩
  · exact absurd h (by simp)
  rcases l with _ | ⟨b2, l⟩
  · exact absurd h (by simp)
  rcases l with _ | ⟨b3, l⟩
  · exact absurd h (by simp)
  exact ⟨b0, b1, b2, b3, l, rfl⟩

/-- **C9.**  Header parsing fails with `badMagic` on every byte stream
whose first four bytes differ from `DDV\\0`, and with
`unsupportedVersion` on every stream with the right magic whose version
u32 is not 1; either error aborts `Masher::Read`, so no header is built
and no frame is decoded. -/
theorem c9_header_validation (bytes : List (Fin 256)) :
    (4 ≤ bytes.length → bytes.take 4 ≠ ddvMagicBytes →
      masherRead bytes = .error .badMagic) ∧
    (8 ≤ bytes.length → bytes.take 4 = ddvMagicBytes →
      (bytes.drop 4).take 4 ≠ ([1, 0, 0, 0] : List (Fin 256)) →
      masherRead bytes = .error .unsupportedVersion) := by
  constructor
  · intro h4 hm
    obtain ⟨b0, b1, b2, b3, t, rfl⟩ := bytes4_decomp bytes h4
    have hb0 := b0.isLt
    have hb1 := b1.isLt
    have hb2 := b2.isLt
    have hb3 := b3.isLt
    have hm' : ¬(b0.val = 68 ∧ b1.val = 68 ∧ b2.val = 86 ∧ b3.val = 0) := by
      rintro ⟨e0, e1, e2, e3⟩
      refine hm ?_
      show [b0, b1, b2, b3] = [68, 68, 86, 0]
      rw [show b0 = (68 : Fin 256) from Fin.ext (by rw [e0]; rfl),
        show b1 = (68 : Fin 256) from Fin.ext (by rw [e1]; rfl),
        show b2 = (86 : Fin 256) from Fin.ext (by rw [e2]; rfl),
        show b3 = (0 : Fin 256) from Fin.ext (by rw [e3]; rfl)]
    rw [masherRead, readU32, if_pos (by simpa using h4)]
    simp only [Except.bind, bind, List.getD_cons_zero, List.getD_cons_succ]
    rw [if_pos (show b0.val + 256 * b1.val + 65536 * b2.val + 16777216 * b3.val ≠
      MakeTypeDDV from by rw [MakeTypeDDV]; omega)]
  · intro h8 hm hv
    obtain ⟨b0, b1, b2, b3, t, rfl⟩ := bytes4_decomp bytes (by omega)
    obtain ⟨b4, b5, b6, b7, t', rfl⟩ := bytes4_decomp t (by simp at h8 ⊢; omega)
    have hb4 := b4.isLt
    have hb5 := b5.isLt
    have hb6 := b6.isLt
    have hb7 := b7.isLt
    obtain ⟨e0, e1, e2, e3⟩ : b0 = 68 ∧ b1 = 68 ∧ b2 = 86 ∧ b3 = 0 := by
      have h : [b0, b1, b2, b3] = [68, 68, 86, 0] := hm
      simpa using h
    have v0 : b0.val = 68 := (congrArg Fin.val e0).trans rfl
    have v1 : b1.val = 68 := (congrArg Fin.val e1).trans rfl
    have v2 : b2.val = 86 := (congrArg Fin.val e2).trans rfl
    have v3 : b3.val = 0 := (congrArg Fin.val e3).trans rfl
    have hv' : ¬(b4.val = 1 ∧ b5.val = 0 ∧ b6.val = 0 ∧ b7.val = 0) := by
      rintro ⟨e4, e5, e6, e7⟩
      refine hv ?_
      show [b4, b5, b6, b7] = [1, 0, 0, 0]
      rw [show b4 = (1 : Fin 256) from Fin.ext (by rw [e4]; rfl),
        show b5 = (0 : Fin 256) from Fin.ext (by rw [e5]; rfl),
        show b6 = (0 : Fin 256) from Fin.ext (by rw [e6]; rfl),
        show b7 = (0 : Fin 256) from Fin.ext (by rw [e7]; rfl)]
    rw [masherRead, readU32, if_pos (by simp)]
    simp only [Except.bind, bind, List.getD_cons_zero, List.getD_cons_succ]
    rw [if_neg (show ¬(b0.val + 256 * b1.val + 65536 * b2.val + 16777216 * b3.val ≠
      MakeTypeDDV) from by rw [MakeTypeDDV]; omega)]
    simp only [Except.bind, bind, pure, Except.pure]
    rw [readU32, if_pos (show 0 + 4 + 4 ≤
      (b0 :: b1 :: b2 :: b3 :: b4 :: b5 :: b6 :: b7 :: t').length from by simp)]
    simp only [Except.bind, bind, List.getD_cons_zero, List.getD_cons_succ]
    rw [if_pos (show b4.val + 256 * b5.val + 65536 * b6.val + 16777216 * b7.val ≠ 1 from
      by omega)]

/-- Witness for `c9_header_validation`: a wrong-magic stream and a
right-magic wrong-version stream. -/
theorem c9_header_validation_witness :
    masherRead ([0, 0, 0, 0] : List (Fin 256)) = .error .badMagic ∧
    masherRead ([68, 68, 86, 0, 2, 0, 0, 0] : List (Fin 256)) =
      .error .unsupportedVersion :=
  ⟨(c9_header_validation [0, 0, 0, 0]).1 (by decide) (by decide),
   (c9_header_validation [68, 68, 86, 0, 2, 0, 0, 0]).2 (by decide) (by decide) (by decide)⟩

end Masher